import Mathlib

/-!
# IO-Hutschienenboard: relay driver, input scanner, auto-off timer, status LED

A shallow embedding of `main.cpp`, `statusled.cpp` and `pin_config.h`.

Conventions of the embedding
* The build with real hardware (`SIMULATE_HW` undefined) is the one modelled.
* C arrays of `NUM_CHANNELS` elements are index functions `Nat → α`; the source
  guards every access with `ch < NUM_CHANNELS`, and so does the model.
* `unsigned long` and `uint32_t` are 32 bits wide on the ESP32-S3 target: they
  are natural numbers, every subtraction, multiplication and addition of the
  source that can leave the range is reduced modulo `2^32` explicitly.
* `millis()` is an input: every operation that reads the uptime counter takes
  the value read as an argument.
* Effects on the outside world (expander writes, the relay driver's log lines,
  snapshots sent to the web-socket clients) are appended to `Board.trace`.
-/

namespace IOBoard

/-! ## pin_config.h -/

/-- Number of channels (`NUM_CHANNELS`). -/
def NUM_CHANNELS : Nat := 12

/-- Range of a 32 bit unsigned integer. -/
def U32 : Nat := 4294967296

/-- Entry of the relay pin table: expander chip index, SET pin and RESET pin. -/
structure RelayPinDef where
  mcpIndex : Nat
  setPin : Nat
  resetPin : Nat
deriving DecidableEq

/-- The relay pin table `RELAY_PINS[12]`. -/
def RELAY_PINS : List RelayPinDef :=
  [ ⟨0, 0, 8⟩, ⟨0, 1, 9⟩, ⟨0, 2, 10⟩, ⟨0, 3, 11⟩,
    ⟨0, 4, 12⟩, ⟨0, 5, 13⟩, ⟨0, 6, 14⟩, ⟨0, 7, 15⟩,
    ⟨1, 0, 8⟩, ⟨1, 1, 9⟩, ⟨1, 2, 10⟩, ⟨1, 3, 11⟩ ]

/-- The table entry `RELAY_PINS[ch]`. -/
def relayPin (ch : Nat) : RelayPinDef := RELAY_PINS.getD ch ⟨0, 0, 0⟩

/-- Assignment `arr[i] = v` on an array seen as an index function. -/
def setAt {α : Type} (arr : Nat → α) (i : Nat) (v : α) : Nat → α :=
  fun j => if j = i then v else arr j

/-- Subtraction of two `unsigned long` values (wraps modulo `2^32`). -/
def u32sub (a b : Nat) : Nat := (a + U32 - b % U32) % U32

/-! ## statusled.h / statusled.cpp -/

namespace statusled

/-- The enumeration `statusled::State`. -/
inductive State
  | ST_OFF
  | ST_BOOTING
  | ST_AP_ONLY
  | ST_WIFI_CONNECTING
  | ST_WIFI_NO_NTP
  | ST_READY
  | ST_RELAY_ACTIVE
  | ST_MCP_ERROR
  | ST_CONFIG_ERROR
  | ST_OTA_UPDATE
  | ST_WS_CLIENT
deriving DecidableEq

/-- Numeric value of an enumerator (its position in the declaration). -/
def State.toNat : State → Nat
  | .ST_OFF => 0
  | .ST_BOOTING => 1
  | .ST_AP_ONLY => 2
  | .ST_WIFI_CONNECTING => 3
  | .ST_WIFI_NO_NTP => 4
  | .ST_READY => 5
  | .ST_RELAY_ACTIVE => 6
  | .ST_MCP_ERROR => 7
  | .ST_CONFIG_ERROR => 8
  | .ST_OTA_UPDATE => 9
  | .ST_WS_CLIENT => 10

/-- An RGB triple (`struct Color`), each channel a `uint8_t`. -/
structure Color where
  r : Nat
  g : Nat
  b : Nat
deriving DecidableEq

def COL_OFF : Color := ⟨0, 0, 0⟩
def COL_WHITE : Color := ⟨255, 255, 255⟩
def COL_GREEN : Color := ⟨0, 255, 0⟩
def COL_RED : Color := ⟨255, 0, 0⟩
def COL_BLUE : Color := ⟨0, 0, 255⟩
def COL_CYAN : Color := ⟨0, 255, 255⟩
def COL_YELLOW : Color := ⟨255, 180, 0⟩
def COL_MAGENTA : Color := ⟨255, 0, 255⟩

/-- The enumeration `Pattern`. -/
inductive Pattern
  | PAT_SOLID
  | PAT_BLINK
  | PAT_PULSE
  | PAT_FLASH
deriving DecidableEq

/-- Pattern definition of one state (`struct StateDef`). -/
structure StateDef where
  color : Color
  pattern : Pattern
  periodMs : Nat
  onMs : Nat
deriving DecidableEq

/-- The static table `STATES[]`, in the order of the source. -/
def STATES : List StateDef :=
  [ ⟨COL_OFF, .PAT_SOLID, 0, 0⟩,
    ⟨COL_WHITE, .PAT_BLINK, 200, 0⟩,
    ⟨COL_YELLOW, .PAT_PULSE, 2000, 0⟩,
    ⟨COL_BLUE, .PAT_BLINK, 400, 0⟩,
    ⟨COL_CYAN, .PAT_SOLID, 0, 0⟩,
    ⟨COL_GREEN, .PAT_SOLID, 0, 0⟩,
    ⟨COL_GREEN, .PAT_BLINK, 2000, 0⟩,
    ⟨COL_RED, .PAT_BLINK, 400, 0⟩,
    ⟨COL_RED, .PAT_SOLID, 0, 0⟩,
    ⟨COL_MAGENTA, .PAT_PULSE, 500, 0⟩,
    ⟨COL_GREEN, .PAT_FLASH, 3000, 50⟩ ]

/-- The lookup `STATES[s_state]`. -/
def stateDef (s : State) : StateDef := STATES.getD s.toNat ⟨COL_OFF, .PAT_SOLID, 0, 0⟩

/-- The module variables `s_state` and `s_cycleStart`. -/
structure Led where
  s_state : State
  s_cycleStart : Nat
deriving DecidableEq

/-- `statusled::setState(state)`, `now` being the value `millis()` returns. -/
def setState (led : Led) (now : Nat) (state : State) : Led :=
  if state = led.s_state then led
  else { s_state := state, s_cycleStart := now }

/-- `setColor(c, dim)`: the triple handed to `strip.setLedColorData`.
The product is computed in `int`, shifted right by 8 and narrowed to `uint8_t`. -/
def setColor (c : Color) (dim : Nat) : Color :=
  ⟨(c.r * dim / 256) % 256, (c.g * dim / 256) % 256, (c.b * dim / 256) % 256⟩

/-- `statusled::update()`: the pixel written at time `now`. The `float`
computation of the pulse pattern is not modelled; `pulseDim pos periodMs` stands
for the dimming factor it yields. -/
def update (pulseDim : Nat → Nat → Nat) (led : Led) (now : Nat) : Color :=
  let sd := stateDef led.s_state
  let elapsed := u32sub now led.s_cycleStart
  match sd.pattern with
  | .PAT_SOLID => setColor sd.color 255
  | .PAT_BLINK =>
      let half := sd.periodMs / 2
      let pos := (elapsed % sd.periodMs) % 65536
      if pos < half then setColor sd.color 255 else setColor COL_OFF 255
  | .PAT_PULSE =>
      let pos := (elapsed % sd.periodMs) % 65536
      setColor sd.color (pulseDim pos sd.periodMs)
  | .PAT_FLASH =>
      let pos := (elapsed % sd.periodMs) % 65536
      if pos < sd.onMs then setColor sd.color 255 else setColor COL_OFF 255

end statusled

/-! ## main.cpp: global state -/

/-- Snapshot built by `buildStateJson()` (the `time` string is left out). -/
structure Snapshot where
  inputs : List Bool
  outputs : List Bool
  mappings : List Int
  timers : List Nat
  remaining : List Nat
  mcp : List Bool
  ntp : Bool
deriving DecidableEq

/-- Effects visible outside the program. -/
inductive Event
  /-- The call `mcp[chip].digitalWrite(pin, level)`. -/
  | write (chip pin : Nat) (level : Bool)
  /-- The line `dbg::error(CAT_RELAY, ...)` of `setRelay`: chip not ready. -/
  | relayErr (ch chip : Nat)
  /-- The line `dbg::info(CAT_RELAY, "Relais %d: %s", ...)` of `setRelay`. -/
  | relayLog (ch : Nat) (isOn : Bool)
  /-- The call `ws.textAll(buildStateJson())` of `sendState`. -/
  | broadcast (snap : Snapshot)
  /-- The call `client->text(buildStateJson())` on a new connection. -/
  | greet (snap : Snapshot)
  /-- The call `ESP.restart()`. -/
  | restart
deriving DecidableEq

/-- Signals read from the collaborators: `ws.count()`,
`WiFi.status() == WL_CONNECTED` and `dbg::isTimeSynced()`. -/
structure Signals where
  wsCount : Nat
  wifiConnected : Bool
  timeSynced : Bool
deriving DecidableEq

/-- The global variables of `main.cpp` and of `statusled.cpp`, the static
`lastNtpState` of `loop`, and the trace of effects. `halted` is set once
`ESP.restart()` has been called. -/
structure Board where
  mcpReady : Nat → Bool
  relayState : Nat → Bool
  inputState : Nat → Bool
  inputStatePrev : Nat → Bool
  inputMapping : Nat → Int
  autoOffSeconds : Nat → Nat
  relayOnTimestamp : Nat → Nat
  led : statusled.Led
  lastNtpState : Bool
  halted : Bool
  trace : List Event

/-- The optional `relayOnSince` of the data model: the source encodes "absent"
as the timestamp `0` (`relayOnTimestamp[ch] == 0`, `relayOnTimestamp[i] > 0`). -/
def relayOnSince (s : Board) (ch : Nat) : Option Nat :=
  if s.relayOnTimestamp ch = 0 then none else some (s.relayOnTimestamp ch)

/-- The expander writes of a trace, in order. -/
def expanderWrites (t : List Event) : List (Nat × Nat × Bool) :=
  t.filterMap fun e =>
    match e with
    | .write chip pin level => some (chip, pin, level)
    | _ => none

/-- The snapshots broadcast in a trace, in order. -/
def broadcasts (t : List Event) : List Snapshot :=
  t.filterMap fun e =>
    match e with
    | .broadcast snap => some snap
    | _ => none

/-- The calls of `setRelay` that reached the driver (one log line each), in order:
`(ch, some isOn)` for a performed switch, `(ch, none)` for an unreachable chip. -/
def driverCalls (t : List Event) : List (Nat × Option Bool) :=
  t.filterMap fun e =>
    match e with
    | .relayLog ch isOn => some (ch, some isOn)
    | .relayErr ch _ => some (ch, none)
    | _ => none

/-! ## main.cpp: functions -/

/-- `getRemainingAutoOffSeconds(ch, nowMs)`. -/
def getRemainingAutoOffSeconds (s : Board) (ch : Nat) (nowMs : Nat) : Nat :=
  if ch ≥ NUM_CHANNELS then 0
  else if !s.relayState ch then 0
  else if s.autoOffSeconds ch = 0 then 0
  else if s.relayOnTimestamp ch = 0 then 0
  else
    let totalMs := (s.autoOffSeconds ch * 1000) % U32
    let elapsedMs := u32sub nowMs (s.relayOnTimestamp ch)
    if elapsedMs ≥ totalMs then 0
    else
      let remainingMs := totalMs - elapsedMs
      ((remainingMs + 999) % U32) / 1000

/-- The loop of `updateLedState` computing `anyRelayOn`. -/
def anyRelayOn (s : Board) : Bool :=
  (List.range NUM_CHANNELS).any fun i => s.relayState i

/-- `updateLedState()`; `now` is what `millis()` returns inside `setState`. -/
def updateLedState (sig : Signals) (s : Board) (now : Nat) : Board :=
  if !s.mcpReady 0 && !s.mcpReady 1 then
    { s with led := statusled.setState s.led now .ST_MCP_ERROR }
  else
    let wsClients := decide (sig.wsCount > 0)
    if anyRelayOn s then
      { s with led := statusled.setState s.led now .ST_RELAY_ACTIVE }
    else if wsClients then
      { s with led := statusled.setState s.led now .ST_WS_CLIENT }
    else if sig.wifiConnected && sig.timeSynced then
      { s with led := statusled.setState s.led now .ST_READY }
    else if sig.wifiConnected then
      { s with led := statusled.setState s.led now .ST_WIFI_NO_NTP }
    else
      { s with led := statusled.setState s.led now .ST_AP_ONLY }

/-- `setRelay(ch, on)`; `now` is the value of `millis()` during the call. -/
def setRelay (sig : Signals) (s : Board) (now : Nat) (ch : Nat) (isOn : Bool) : Board :=
  if ch ≥ NUM_CHANNELS then s
  else
    let rp := relayPin ch
    if !s.mcpReady rp.mcpIndex then
      { s with trace := s.trace ++ [Event.relayErr ch rp.mcpIndex] }
    else
      let pin := if isOn then rp.setPin else rp.resetPin
      let s1 : Board :=
        { s with
          relayState := setAt s.relayState ch isOn
          relayOnTimestamp := setAt s.relayOnTimestamp ch (if isOn then now else 0)
          trace := s.trace ++ [Event.write rp.mcpIndex pin true,
                               Event.write rp.mcpIndex pin false,
                               Event.relayLog ch isOn] }
      updateLedState sig s1 now

/-- `toggleRelay(ch)`. -/
def toggleRelay (sig : Signals) (s : Board) (now : Nat) (ch : Nat) : Board :=
  setRelay sig s now ch (!s.relayState ch)

/-- `buildStateJson()`, `now` being its `millis()` reading. -/
def buildStateJson (sig : Signals) (s : Board) (now : Nat) : Snapshot :=
  { inputs := (List.range NUM_CHANNELS).map fun i => s.inputState i
    outputs := (List.range NUM_CHANNELS).map fun i => s.relayState i
    mappings := (List.range NUM_CHANNELS).map fun i => s.inputMapping i
    timers := (List.range NUM_CHANNELS).map fun i => s.autoOffSeconds i
    remaining := (List.range NUM_CHANNELS).map fun i => getRemainingAutoOffSeconds s i now
    mcp := [s.mcpReady 0, s.mcpReady 1]
    ntp := sig.timeSynced }

/-- `sendState()`. -/
def sendState (sig : Signals) (s : Board) (now : Nat) : Board :=
  { s with trace := s.trace ++ [Event.broadcast (buildStateJson sig s now)] }

/-! ## main.cpp: web-socket commands -/

/-- A decoded web-socket message whose `cmd` field is present. The fields carry
the C types of the handler: `ch`, `input` are `uint8_t`, `output` is `int8_t`,
`secs` is `uint32_t`. `other` is a `cmd` string matching no branch. -/
inductive Command
  | toggle (ch : Nat)
  | set (ch : Nat) (val : Bool)
  | map (input : Nat) (output : Int)
  | timer (ch : Nat) (secs : Nat)
  | wifi
  | alloff
  | other
deriving DecidableEq

/-- Body of the `alloff` loop for index `i`. -/
def allOffStep (sig : Signals) (now : Nat) (s : Board) (i : Nat) : Board :=
  if s.relayState i then setRelay sig s now i false else s

/-- The branch of `onWebSocketEvent` selected by `cmd`, before `sendState()`.
`saveConfig()` writes to the preferences store only and is not traced. -/
def dispatch (sig : Signals) (s : Board) (now : Nat) : Command → Board
  | .toggle ch => if ch < NUM_CHANNELS then toggleRelay sig s now ch else s
  | .set ch val => if ch < NUM_CHANNELS then setRelay sig s now ch val else s
  | .map input output =>
      if input < NUM_CHANNELS ∧ output < (NUM_CHANNELS : Int) then
        { s with inputMapping := setAt s.inputMapping input output }
      else s
  | .timer ch secs =>
      if ch < NUM_CHANNELS then
        { s with autoOffSeconds := setAt s.autoOffSeconds ch secs }
      else s
  | .wifi =>
      { s with
        led := statusled.setState s.led now .ST_BOOTING
        halted := true
        trace := s.trace ++ [Event.restart] }
  | .alloff => (List.range NUM_CHANNELS).foldl (allOffStep sig now) s
  | .other => s

/-- `onWebSocketEvent` for `WS_EVT_DATA`. `none` is a message that fails to
parse or has no `cmd`. After `wifi` the call of `ESP.restart()` does not return,
so `sendState()` is not reached. -/
def onWebSocketData (sig : Signals) (s : Board) (now : Nat) : Option Command → Board
  | none => s
  | some .wifi => dispatch sig s now .wifi
  | some c => sendState sig (dispatch sig s now c) now

/-- `onWebSocketEvent` for `WS_EVT_CONNECT`. -/
def onWebSocketConnect (sig : Signals) (s : Board) (now : Nat) : Board :=
  updateLedState sig
    { s with trace := s.trace ++ [Event.greet (buildStateJson sig s now)] } now

/-- `onWebSocketEvent` for `WS_EVT_DISCONNECT`. -/
def onWebSocketDisconnect (sig : Signals) (s : Board) (now : Nat) : Board :=
  updateLedState sig s now

/-! ## main.cpp: loop -/

/-- What one pass of `loop` reads from outside: `pins i` is
`digitalRead(INPUT_PINS[i])`, `tScan i` the `millis()` reading of the toggle
triggered by input `i`, `now` the reading of the auto-off check, `tOff i` the
reading of the auto-off switch of relay `i`, `tEnd` the reading of the NTP
update and of the snapshot. -/
structure TickInput where
  sig : Signals
  pins : Nat → Bool
  tScan : Nat → Nat
  now : Nat
  tOff : Nat → Nat
  tEnd : Nat

/-- Body of the input loop for index `i`; the flag is `stateChanged`. -/
def scanStep (inp : TickInput) (acc : Board × Bool) (i : Nat) : Board × Bool :=
  let s := acc.1
  let current := inp.pins i
  let acc1 : Board × Bool :=
    if current && !s.inputStatePrev i then
      let s1 : Board := { s with inputState := setAt s.inputState i true }
      let s2 : Board :=
        if 0 ≤ s1.inputMapping i ∧ s1.inputMapping i < (NUM_CHANNELS : Int) then
          toggleRelay inp.sig s1 (inp.tScan i) (s1.inputMapping i).toNat
        else s1
      (s2, true)
    else if !current && s.inputStatePrev i then
      ({ s with inputState := setAt s.inputState i false }, true)
    else acc
  ({ acc1.1 with inputStatePrev := setAt acc1.1.inputStatePrev i current }, acc1.2)

/-- The input loop of `loop`. -/
def scanInputs (inp : TickInput) (acc : Board × Bool) : Board × Bool :=
  (List.range NUM_CHANNELS).foldl (scanStep inp) acc

/-- The condition under which the auto-off check switches relay `i` off. -/
def autoOffDue (s : Board) (now : Nat) (i : Nat) : Bool :=
  (s.relayState i && decide (s.autoOffSeconds i > 0) && decide (s.relayOnTimestamp i > 0))
    && decide (u32sub now (s.relayOnTimestamp i) ≥ (s.autoOffSeconds i * 1000) % U32)

/-- Body of the auto-off loop for index `i`. -/
def autoOffStep (inp : TickInput) (acc : Board × Bool) (i : Nat) : Board × Bool :=
  if autoOffDue acc.1 inp.now i then
    (setRelay inp.sig acc.1 (inp.tOff i) i false, true)
  else acc

/-- The auto-off loop of `loop`. -/
def autoOffSweep (inp : TickInput) (acc : Board × Bool) : Board × Bool :=
  (List.range NUM_CHANNELS).foldl (autoOffStep inp) acc

/-- The LED update of `loop` when the time gets synchronised. -/
def ntpStep (inp : TickInput) (s : Board) : Board :=
  if inp.sig.timeSynced && !s.lastNtpState then
    { updateLedState inp.sig s inp.tEnd with lastNtpState := true }
  else s

/-- One pass of `loop()`. The rendering `statusled::update()` changes no
variable (see `statusled.update`); the station monitoring only logs. -/
def loop (inp : TickInput) (s : Board) : Board :=
  let a := scanInputs inp (s, false)
  let b := autoOffSweep inp a
  let s1 := ntpStep inp b.1
  if b.2 then sendState inp.sig s1 inp.tEnd else s1

/-! ## main.cpp: setup -/

/-- What `setup` reads from outside: the probe result of the two expander chips,
the stored configuration, the result of mounting the file system, and the
`millis()` readings of the three `setState` calls. -/
structure BootInput where
  sig : Signals
  ready : Nat → Bool
  mapping : Nat → Int
  autoOff : Nat → Nat
  fsOk : Bool
  tBoot : Nat
  tFs : Nat
  tEnd : Nat

/-- The RESET lines driven to `level` for all relays on a reachable chip. -/
def resetWrites (ready : Nat → Bool) (level : Bool) : List Event :=
  (List.range NUM_CHANNELS).filterMap fun i =>
    if ready (relayPin i).mcpIndex then
      some (Event.write (relayPin i).mcpIndex (relayPin i).resetPin level)
    else none

/-- The state at the end of `setup()`. -/
def setup (b : BootInput) : Board :=
  let led0 : statusled.Led := { s_state := .ST_OFF, s_cycleStart := 0 }
  let led1 := statusled.setState led0 b.tBoot .ST_BOOTING
  let led2 := if b.fsOk then led1 else statusled.setState led1 b.tFs .ST_CONFIG_ERROR
  let s0 : Board :=
    { mcpReady := fun m => decide (m < 2) && b.ready m
      relayState := fun _ => false
      inputState := fun _ => false
      inputStatePrev := fun _ => false
      inputMapping := b.mapping
      autoOffSeconds := b.autoOff
      relayOnTimestamp := fun _ => 0
      led := led2
      lastNtpState := false
      halted := false
      trace := resetWrites b.ready true ++ resetWrites b.ready false }
  updateLedState b.sig s0 b.tEnd

/-! ## Runs of the program -/

/-- The things that happen to a running board. -/
inductive Action
  | callSetRelay (sig : Signals) (now : Nat) (ch : Nat) (isOn : Bool)
  | callToggleRelay (sig : Signals) (now : Nat) (ch : Nat)
  | wsData (sig : Signals) (now : Nat) (cmd : Option Command)
  | wsConnect (sig : Signals) (now : Nat)
  | wsDisconnect (sig : Signals) (now : Nat)
  | tick (inp : TickInput)

/-- Effect of one action. A board that called `ESP.restart()` runs no code
until it is set up again. -/
def step (s : Board) (a : Action) : Board :=
  if s.halted then s
  else
    match a with
    | .callSetRelay sig now ch isOn => setRelay sig s now ch isOn
    | .callToggleRelay sig now ch => toggleRelay sig s now ch
    | .wsData sig now cmd => onWebSocketData sig s now cmd
    | .wsConnect sig now => onWebSocketConnect sig s now
    | .wsDisconnect sig now => onWebSocketDisconnect sig s now
    | .tick inp => loop inp s

/-- The state after a sequence of actions. -/
def run (s : Board) (as : List Action) : Board := as.foldl step s

/-- The states reachable from a startup state. -/
def Reachable (s : Board) : Prop := ∃ b as, s = run (setup b) as

/-! ## Concrete inputs used in the evaluations below -/

/-- No client, no uplink, time not synchronised. -/
def sigIdle : Signals := { wsCount := 0, wifiConnected := false, timeSynced := false }

/-- A start with both expander chips found, no mapping and no timer stored. -/
def bootReady : BootInput :=
  { sig := sigIdle, ready := fun _ => true, mapping := fun _ => -1, autoOff := fun _ => 0,
    fsOk := true, tBoot := 5, tFs := 6, tEnd := 7 }

/-- A start where the first expander chip does not answer. -/
def bootChip0Down : BootInput := { bootReady with ready := fun m => decide (m = 1) }

/-- A pass of `loop` at uptime `now` with every input line low. -/
def tickQuiet (now : Nat) : TickInput :=
  { sig := sigIdle, pins := fun _ => false, tScan := fun _ => now, now := now,
    tOff := fun _ => now, tEnd := now }

/-- Command `set` of relay 0 to on, received while `millis()` reads 0. -/
def switchOnAtZero : List Action :=
  [Action.wsData sigIdle 0 (some (Command.set 0 true))]

/-- Timer of relay 0 set to `secs` seconds at uptime 10, relay 0 switched on at
uptime 1000. -/
def timedOn (secs : Nat) : List Action :=
  [Action.wsData sigIdle 10 (some (Command.timer 0 secs)),
   Action.wsData sigIdle 1000 (some (Command.set 0 true))]

/-- A start like `bootReady` with input 3 mapped to relay 7 in the stored
configuration. -/
def bootMap37 : BootInput := { bootReady with mapping := fun i => if i = 3 then 7 else -1 }

/-- A pass of `loop` in which input 3 reads high and every other input low. -/
def tickEdge3 : TickInput :=
  { sig := sigIdle, pins := fun i => decide (i = 3), tScan := fun _ => 100, now := 150,
    tOff := fun _ => 160, tEnd := 170 }

/-- Two clients connected, uplink present, time synchronised. -/
def sigObserved : Signals := { wsCount := 2, wifiConnected := true, timeSynced := true }

/-- An LED that entered the booting state at uptime 1000. -/
def ledBooting : statusled.Led := { s_state := .ST_BOOTING, s_cycleStart := 1000 }

/-- The six arrays of the channel store agree in two states. -/
def SameStore (s t : Board) : Prop :=
  t.relayState = s.relayState ∧ t.relayOnTimestamp = s.relayOnTimestamp ∧
  t.inputState = s.inputState ∧ t.inputStatePrev = s.inputStatePrev ∧
  t.inputMapping = s.inputMapping ∧ t.autoOffSeconds = s.autoOffSeconds

/-- Every relay that is on sits on a channel in range whose chip is ready. -/
def RelaysBacked (s : Board) : Prop :=
  ∀ ch, s.relayState ch = true → ch < NUM_CHANNELS ∧ s.mcpReady (relayPin ch).mcpIndex = true

/-- A property of the relay variables and the chip flags that `setRelay` keeps. -/
structure RelayInvariant (P : Board → Prop) : Prop where
  congr : ∀ s t : Board, t.relayState = s.relayState →
    t.relayOnTimestamp = s.relayOnTimestamp → t.mcpReady = s.mcpReady → P s → P t
  keep : ∀ (sig : Signals) (s : Board) (now ch : Nat) (isOn : Bool),
    P s → P (setRelay sig s now ch isOn)

/-- The priority list of the specification for the indicator state: the first
condition that holds decides. -/
def indicatorPriority (bothUnreachable anyOn : Bool) (observers : Nat)
    (connected synced : Bool) : statusled.State :=
  if bothUnreachable then .ST_MCP_ERROR
  else if anyOn then .ST_RELAY_ACTIVE
  else if observers > 0 then .ST_WS_CLIENT
  else if connected && synced then .ST_READY
  else if connected then .ST_WIFI_NO_NTP
  else .ST_AP_ONLY

/-- An LED in the ready state (green, solid) since uptime 1000. -/
def ledReady : statusled.Led := { s_state := .ST_READY, s_cycleStart := 1000 }

/-- Every timestamp that is set belongs to a relay that is on. -/
def TimestampBacked (s : Board) : Prop :=
  ∀ ch, s.relayOnTimestamp ch ≠ 0 → s.relayState ch = true

/-- The events of the pulse that switches relay `ch` off, with the log line. -/
def resetPulse (ch : Nat) : List Event :=
  [Event.write (relayPin ch).mcpIndex (relayPin ch).resetPin true,
   Event.write (relayPin ch).mcpIndex (relayPin ch).resetPin false,
   Event.relayLog ch false]

/-- Relays 0 and 2 switched on by two `set` commands. -/
def switchOn02 : List Action :=
  [Action.wsData sigIdle 1000 (some (Command.set 0 true)),
   Action.wsData sigIdle 2000 (some (Command.set 2 true))]

/-- The state of the input loop of `loop` when it reaches index `i`. -/
def scanPrefix (inp : TickInput) (s : Board) (i : Nat) : Board × Bool :=
  (List.range i).foldl (scanStep inp) (s, false)

/-- A pass of `loop` at uptime `now` in which input 3 reads `level` and every other
input low. -/
def tickInput3 (level : Bool) (now : Nat) : TickInput :=
  { sig := sigIdle, pins := fun i => decide (i = 3) && level, tScan := fun _ => now,
    now := now, tOff := fun _ => now, tEnd := now }

/-- The observable input level agrees with the last sample, for every input. -/
def InputsSettled (s : Board) : Prop := ∀ i, s.inputState i = s.inputStatePrev i

/-- An observable value (a raw input or a relay state) differs between `s` and `t`. -/
def ObservableChange (s t : Board) : Prop :=
  ∃ i, i < NUM_CHANNELS ∧ (t.inputState i ≠ s.inputState i ∨ t.relayState i ≠ s.relayState i)

/-- The entries of the driver log of a trace that belong to channel `ch`. -/
def driverCallsOf (ch : Nat) (t : List Event) : List (Nat × Option Bool) :=
  (driverCalls t).filter fun x => decide (x.1 = ch)

/-! ## Basic facts -/

theorem setAt_same {α : Type} (arr : Nat → α) (i : Nat) (v : α) : setAt arr i v i = v := by
  simp [setAt]

theorem setAt_other {α : Type} (arr : Nat → α) (i j : Nat) (v : α) (h : j ≠ i) :
    setAt arr i v j = arr j := by
  simp [setAt, h]

theorem u32sub_of_le (a b : Nat) (hab : b ≤ a) (ha : a < U32) : u32sub a b = a - b := by
  unfold u32sub U32 at *
  omega

/-- `updateLedState` writes the LED variables only. -/
theorem updateLedState_eq (sig : Signals) (s : Board) (now : Nat) :
    updateLedState sig s now = { s with led := (updateLedState sig s now).led } := by
  simp only [updateLedState]
  split_ifs <;> rfl

theorem updateLedState_relayState (sig : Signals) (s : Board) (now : Nat) :
    (updateLedState sig s now).relayState = s.relayState := by
  rw [updateLedState_eq]

theorem updateLedState_relayOnTimestamp (sig : Signals) (s : Board) (now : Nat) :
    (updateLedState sig s now).relayOnTimestamp = s.relayOnTimestamp := by
  rw [updateLedState_eq]

theorem updateLedState_inputState (sig : Signals) (s : Board) (now : Nat) :
    (updateLedState sig s now).inputState = s.inputState := by
  rw [updateLedState_eq]

theorem updateLedState_inputStatePrev (sig : Signals) (s : Board) (now : Nat) :
    (updateLedState sig s now).inputStatePrev = s.inputStatePrev := by
  rw [updateLedState_eq]

theorem updateLedState_inputMapping (sig : Signals) (s : Board) (now : Nat) :
    (updateLedState sig s now).inputMapping = s.inputMapping := by
  rw [updateLedState_eq]

theorem updateLedState_autoOffSeconds (sig : Signals) (s : Board) (now : Nat) :
    (updateLedState sig s now).autoOffSeconds = s.autoOffSeconds := by
  rw [updateLedState_eq]

theorem updateLedState_mcpReady (sig : Signals) (s : Board) (now : Nat) :
    (updateLedState sig s now).mcpReady = s.mcpReady := by
  rw [updateLedState_eq]

theorem updateLedState_trace (sig : Signals) (s : Board) (now : Nat) :
    (updateLedState sig s now).trace = s.trace := by
  rw [updateLedState_eq]

theorem updateLedState_halted (sig : Signals) (s : Board) (now : Nat) :
    (updateLedState sig s now).halted = s.halted := by
  rw [updateLedState_eq]

theorem updateLedState_lastNtpState (sig : Signals) (s : Board) (now : Nat) :
    (updateLedState sig s now).lastNtpState = s.lastNtpState := by
  rw [updateLedState_eq]

/-- The relay pin table names chip 0 or chip 1 for every channel. -/
theorem relayPin_mcpIndex_lt (ch : Nat) : (relayPin ch).mcpIndex < 2 := by
  by_cases h : ch < 12
  · interval_cases ch <;> decide
  · have h12 : RELAY_PINS.length ≤ ch := by simp [RELAY_PINS]; omega
    simp [relayPin, List.getD, List.getElem?_eq_none h12]

/-- `setRelay` on a channel out of range returns at once. -/
theorem setRelay_out_of_range (sig : Signals) (s : Board) (now ch : Nat) (isOn : Bool)
    (h : NUM_CHANNELS ≤ ch) : setRelay sig s now ch isOn = s := by
  simp [setRelay, h]

/-- `setRelay` on a channel whose chip is not ready only logs the error. -/
theorem setRelay_unreachable (sig : Signals) (s : Board) (now ch : Nat) (isOn : Bool)
    (hch : ch < NUM_CHANNELS) (h : s.mcpReady (relayPin ch).mcpIndex = false) :
    setRelay sig s now ch isOn =
      { s with trace := s.trace ++ [Event.relayErr ch (relayPin ch).mcpIndex] } := by
  simp [setRelay, Nat.not_le.mpr hch, h]

/-- `setRelay` on a valid channel of a ready chip: the pulse, the two stores and
the LED update. -/
theorem setRelay_reachable (sig : Signals) (s : Board) (now ch : Nat) (isOn : Bool)
    (hch : ch < NUM_CHANNELS) (h : s.mcpReady (relayPin ch).mcpIndex = true) :
    setRelay sig s now ch isOn =
      updateLedState sig
        { s with
          relayState := setAt s.relayState ch isOn
          relayOnTimestamp := setAt s.relayOnTimestamp ch (if isOn then now else 0)
          trace := s.trace ++
            [Event.write (relayPin ch).mcpIndex
                (if isOn then (relayPin ch).setPin else (relayPin ch).resetPin) true,
             Event.write (relayPin ch).mcpIndex
                (if isOn then (relayPin ch).setPin else (relayPin ch).resetPin) false,
             Event.relayLog ch isOn] } now := by
  simp [setRelay, Nat.not_le.mpr hch, h]

theorem setRelay_inputState (sig : Signals) (s : Board) (now ch : Nat) (isOn : Bool) :
    (setRelay sig s now ch isOn).inputState = s.inputState := by
  by_cases hch : ch < NUM_CHANNELS
  · cases h : s.mcpReady (relayPin ch).mcpIndex
    · rw [setRelay_unreachable sig s now ch isOn hch h]
    · rw [setRelay_reachable sig s now ch isOn hch h, updateLedState_inputState]
  · rw [setRelay_out_of_range sig s now ch isOn (Nat.le_of_not_lt hch)]

theorem setRelay_inputStatePrev (sig : Signals) (s : Board) (now ch : Nat) (isOn : Bool) :
    (setRelay sig s now ch isOn).inputStatePrev = s.inputStatePrev := by
  by_cases hch : ch < NUM_CHANNELS
  · cases h : s.mcpReady (relayPin ch).mcpIndex
    · rw [setRelay_unreachable sig s now ch isOn hch h]
    · rw [setRelay_reachable sig s now ch isOn hch h, updateLedState_inputStatePrev]
  · rw [setRelay_out_of_range sig s now ch isOn (Nat.le_of_not_lt hch)]

theorem setRelay_inputMapping (sig : Signals) (s : Board) (now ch : Nat) (isOn : Bool) :
    (setRelay sig s now ch isOn).inputMapping = s.inputMapping := by
  by_cases hch : ch < NUM_CHANNELS
  · cases h : s.mcpReady (relayPin ch).mcpIndex
    · rw [setRelay_unreachable sig s now ch isOn hch h]
    · rw [setRelay_reachable sig s now ch isOn hch h, updateLedState_inputMapping]
  · rw [setRelay_out_of_range sig s now ch isOn (Nat.le_of_not_lt hch)]

theorem setRelay_autoOffSeconds (sig : Signals) (s : Board) (now ch : Nat) (isOn : Bool) :
    (setRelay sig s now ch isOn).autoOffSeconds = s.autoOffSeconds := by
  by_cases hch : ch < NUM_CHANNELS
  · cases h : s.mcpReady (relayPin ch).mcpIndex
    · rw [setRelay_unreachable sig s now ch isOn hch h]
    · rw [setRelay_reachable sig s now ch isOn hch h, updateLedState_autoOffSeconds]
  · rw [setRelay_out_of_range sig s now ch isOn (Nat.le_of_not_lt hch)]

theorem setRelay_mcpReady (sig : Signals) (s : Board) (now ch : Nat) (isOn : Bool) :
    (setRelay sig s now ch isOn).mcpReady = s.mcpReady := by
  by_cases hch : ch < NUM_CHANNELS
  · cases h : s.mcpReady (relayPin ch).mcpIndex
    · rw [setRelay_unreachable sig s now ch isOn hch h]
    · rw [setRelay_reachable sig s now ch isOn hch h, updateLedState_mcpReady]
  · rw [setRelay_out_of_range sig s now ch isOn (Nat.le_of_not_lt hch)]

theorem expanderWrites_append (t u : List Event) :
    expanderWrites (t ++ u) = expanderWrites t ++ expanderWrites u := by
  simp [expanderWrites, List.filterMap_append]

theorem SameStore.refl (s : Board) : SameStore s s :=
  ⟨rfl, rfl, rfl, rfl, rfl, rfl⟩

theorem relayOnSince_congr (s t : Board) (h : t.relayOnTimestamp = s.relayOnTimestamp)
    (j : Nat) : relayOnSince t j = relayOnSince s j := by
  simp [relayOnSince, h]

/-- After a performed `setRelay` the relay state of the channel is the requested one. -/
theorem setRelay_relayState_self (sig : Signals) (s : Board) (now ch : Nat) (isOn : Bool)
    (hch : ch < NUM_CHANNELS) (h : s.mcpReady (relayPin ch).mcpIndex = true) :
    (setRelay sig s now ch isOn).relayState ch = isOn := by
  rw [setRelay_reachable sig s now ch isOn hch h, updateLedState_relayState]
  exact setAt_same _ _ _

/-- After a performed `setRelay` the timestamp of the channel is `now` or `0`. -/
theorem setRelay_relayOnTimestamp_self (sig : Signals) (s : Board) (now ch : Nat)
    (isOn : Bool) (hch : ch < NUM_CHANNELS) (h : s.mcpReady (relayPin ch).mcpIndex = true) :
    (setRelay sig s now ch isOn).relayOnTimestamp ch = if isOn then now else 0 := by
  rw [setRelay_reachable sig s now ch isOn hch h, updateLedState_relayOnTimestamp]
  exact setAt_same _ _ _

/-- Switching on at a nonzero uptime records the uptime. -/
theorem setRelay_on_relayOnSince (sig : Signals) (s : Board) (now ch : Nat)
    (hch : ch < NUM_CHANNELS) (h : s.mcpReady (relayPin ch).mcpIndex = true)
    (hnow : now ≠ 0) : relayOnSince (setRelay sig s now ch true) ch = some now := by
  simp [relayOnSince, setRelay_relayOnTimestamp_self sig s now ch true hch h, hnow]

/-- Switching off clears the timestamp. -/
theorem setRelay_off_relayOnSince (sig : Signals) (s : Board) (now ch : Nat)
    (hch : ch < NUM_CHANNELS) (h : s.mcpReady (relayPin ch).mcpIndex = true) :
    relayOnSince (setRelay sig s now ch false) ch = none := by
  simp [relayOnSince, setRelay_relayOnTimestamp_self sig s now ch false hch h]

/-- A `setRelay` that is not performed leaves the channel store as it is and
writes no expander line. -/
theorem setRelay_not_performed (sig : Signals) (s : Board) (now ch : Nat) (isOn : Bool)
    (h : NUM_CHANNELS ≤ ch ∨ s.mcpReady (relayPin ch).mcpIndex = false) :
    SameStore s (setRelay sig s now ch isOn) ∧
      expanderWrites (setRelay sig s now ch isOn).trace = expanderWrites s.trace := by
  by_cases hch : ch < NUM_CHANNELS
  · have hr : s.mcpReady (relayPin ch).mcpIndex = false := by
      rcases h with h | h
      · omega
      · exact h
    rw [setRelay_unreachable sig s now ch isOn hch hr]
    exact ⟨⟨rfl, rfl, rfl, rfl, rfl, rfl⟩, by simp [expanderWrites_append, expanderWrites]⟩
  · rw [setRelay_out_of_range sig s now ch isOn (Nat.le_of_not_lt hch)]
    exact ⟨SameStore.refl s, rfl⟩

/-! ## C1: `setRelay` on a reachable channel -/

/-- C1, evaluated where it fails: on the freshly started board with both chips
ready, `setRelay(0, true)` called while `millis()` reads 0 leaves relay 0 on with
the timestamp 0, which is the encoding of an absent `relayOnSince`; the claim
asks for `relayOnSince` present and equal to `now`. -/
theorem setRelay_on_at_uptime_zero :
    (0 : Nat) < NUM_CHANNELS ∧
    (setup bootReady).mcpReady (relayPin 0).mcpIndex = true ∧
    (setRelay sigIdle (setup bootReady) 0 0 true).relayState 0 = true ∧
    (setRelay sigIdle (setup bootReady) 0 0 true).relayOnTimestamp 0 = 0 ∧
    relayOnSince (setRelay sigIdle (setup bootReady) 0 0 true) 0 = none := by
  decide

/-! ## C2: `setRelay` that is not performed -/

/-- C2: if `ch` is out of range or the expander chip of `ch` is not ready,
`setRelay(ch, desired)` changes no array of the channel store (so `relayOn` and
`relayOnSince` of every channel keep their values) and writes no expander line;
the commands `toggle` and `set` with `ch` out of range change no array of the
channel store and write no expander line either. -/
theorem setRelay_noop_on_invalid (sig : Signals) (s : Board) (now ch : Nat) (desired : Bool)
    (h : NUM_CHANNELS ≤ ch ∨ s.mcpReady (relayPin ch).mcpIndex = false) :
    (SameStore s (setRelay sig s now ch desired) ∧
      (∀ j, (setRelay sig s now ch desired).relayState j = s.relayState j) ∧
      (∀ j, relayOnSince (setRelay sig s now ch desired) j = relayOnSince s j) ∧
      expanderWrites (setRelay sig s now ch desired).trace = expanderWrites s.trace) ∧
    (NUM_CHANNELS ≤ ch →
      ∀ c, c = Command.toggle ch ∨ c = Command.set ch desired →
        SameStore s (onWebSocketData sig s now (some c)) ∧
        (∀ j, (onWebSocketData sig s now (some c)).relayState j = s.relayState j) ∧
        (∀ j, relayOnSince (onWebSocketData sig s now (some c)) j = relayOnSince s j) ∧
        expanderWrites (onWebSocketData sig s now (some c)).trace = expanderWrites s.trace) := by
  obtain ⟨hs, hw⟩ := setRelay_not_performed sig s now ch desired h
  refine ⟨⟨hs, fun j => by rw [hs.1], fun j => relayOnSince_congr _ _ hs.2.1 j, hw⟩, ?_⟩
  intro hch c hc
  have hlt : ¬ ch < NUM_CHANNELS := Nat.not_lt.mpr hch
  have hd : dispatch sig s now c = s := by
    rcases hc with rfl | rfl <;> simp [dispatch, hlt]
  have he : onWebSocketData sig s now (some c) = sendState sig s now := by
    rcases hc with rfl | rfl <;> simp only [onWebSocketData, hd]
  rw [he]
  refine ⟨⟨rfl, rfl, rfl, rfl, rfl, rfl⟩, fun j => rfl, fun j => rfl, ?_⟩
  simp [sendState, expanderWrites_append, expanderWrites]

/-- C2 at concrete inputs: channel 200 on a fresh board, and channel 3 on a board
whose first expander chip did not answer. -/
theorem setRelay_noop_on_invalid_witness :
    ((SameStore (setup bootReady) (setRelay sigIdle (setup bootReady) 40 200 true) ∧
      (∀ j, (setRelay sigIdle (setup bootReady) 40 200 true).relayState j =
        (setup bootReady).relayState j) ∧
      (∀ j, relayOnSince (setRelay sigIdle (setup bootReady) 40 200 true) j =
        relayOnSince (setup bootReady) j) ∧
      expanderWrites (setRelay sigIdle (setup bootReady) 40 200 true).trace =
        expanderWrites (setup bootReady).trace) ∧
    (NUM_CHANNELS ≤ 200 →
      ∀ c, c = Command.toggle 200 ∨ c = Command.set 200 true →
        SameStore (setup bootReady) (onWebSocketData sigIdle (setup bootReady) 40 (some c)) ∧
        (∀ j, (onWebSocketData sigIdle (setup bootReady) 40 (some c)).relayState j =
          (setup bootReady).relayState j) ∧
        (∀ j, relayOnSince (onWebSocketData sigIdle (setup bootReady) 40 (some c)) j =
          relayOnSince (setup bootReady) j) ∧
        expanderWrites (onWebSocketData sigIdle (setup bootReady) 40 (some c)).trace =
          expanderWrites (setup bootReady).trace)) ∧
    (setup bootChip0Down).mcpReady (relayPin 3).mcpIndex = false ∧
    (setRelay sigIdle (setup bootChip0Down) 40 3 true).relayState 3 = false ∧
    expanderWrites (setRelay sigIdle (setup bootChip0Down) 40 3 true).trace =
      expanderWrites (setup bootChip0Down).trace :=
  ⟨setRelay_noop_on_invalid sigIdle (setup bootReady) 40 200 true (Or.inl (by decide)),
   by decide,
   ((setRelay_noop_on_invalid sigIdle (setup bootChip0Down) 40 3 true
      (Or.inr (by decide))).1.2.1 3).trans (by decide),
   (setRelay_noop_on_invalid sigIdle (setup bootChip0Down) 40 3 true
      (Or.inr (by decide))).1.2.2.2⟩

/-! ## C3: `relayOnSince` present exactly when the relay is on -/

/-- C3, evaluated where it fails: the command `set` for relay 0, handled on the
freshly started board while `millis()` reads 0, leads to a reachable state in which
relay 0 is on and `relayOnSince` of relay 0 is absent. -/
theorem reachable_on_without_relayOnSince :
    Reachable (run (setup bootReady) switchOnAtZero) ∧
    (run (setup bootReady) switchOnAtZero).relayState 0 = true ∧
    relayOnSince (run (setup bootReady) switchOnAtZero) 0 = none :=
  ⟨⟨bootReady, switchOnAtZero, rfl⟩, by decide, by decide⟩

/-! ## C4: the auto-off check -/

/-- The product `autoOffSeconds * 1000` of the source is exact up to 4294967 s. -/
theorem autoOff_product_exact (secs : Nat) (h : secs ≤ 4294967) :
    (secs * 1000) % U32 = secs * 1000 := by
  unfold U32
  omega

/-- Where the product does not wrap, the auto-off check fires exactly under the
four conditions of the specification. -/
theorem autoOffDue_iff_of_small (s : Board) (now i : Nat) (h : s.autoOffSeconds i ≤ 4294967) :
    autoOffDue s now i = true ↔
      (s.relayState i = true ∧ 0 < s.autoOffSeconds i ∧ (relayOnSince s i).isSome = true ∧
        s.autoOffSeconds i * 1000 ≤ u32sub now (s.relayOnTimestamp i)) := by
  have hp := autoOff_product_exact (s.autoOffSeconds i) h
  by_cases hz : s.relayOnTimestamp i = 0
  · simp [autoOffDue, relayOnSince, hz]
  · simp [autoOffDue, relayOnSince, hz, hp, Nat.pos_of_ne_zero hz, and_assoc]

/-- C4, evaluated where it fails: relay 0 has `autoOffSeconds = 4294968` and was
switched on at uptime 1000. In the pass of `loop` at uptime 1704 the elapsed time
is 704 ms, far below 4294968000 ms, yet the check fires (the 32 bit product is
704) and the pass switches relay 0 off. -/
theorem autoOff_fires_early :
    (run (setup bootReady) (timedOn 4294968)).relayState 0 = true ∧
    (run (setup bootReady) (timedOn 4294968)).autoOffSeconds 0 = 4294968 ∧
    relayOnSince (run (setup bootReady) (timedOn 4294968)) 0 = some 1000 ∧
    u32sub 1704 1000 = 704 ∧
    ¬ (4294968 * 1000 ≤ 704) ∧
    autoOffDue (run (setup bootReady) (timedOn 4294968)) 1704 0 = true ∧
    (loop (tickQuiet 1704) (run (setup bootReady) (timedOn 4294968))).relayState 0 = false ∧
    driverCalls (loop (tickQuiet 1704) (run (setup bootReady) (timedOn 4294968))).trace =
      [(0, some true), (0, some false)] := by
  decide

/-! ## C5: remaining seconds -/

/-- Adding 999 before the division by 1000 rounds up. -/
theorem ceil_div_thousand (n : Nat) : (n + 999) / 1000 = if n % 1000 = 0 then n / 1000 else n / 1000 + 1 := by
  split <;> omega

/-- Where neither the product nor the rounding wraps, `getRemainingAutoOffSeconds`
is the rounded-up remaining time of a running timer. -/
theorem getRemaining_exact_of_small (s : Board) (ch now : Nat) (hch : ch < NUM_CHANNELS)
    (hon : s.relayState ch = true) (hS : 0 < s.autoOffSeconds ch)
    (hsmall : s.autoOffSeconds ch ≤ 4294966) (hts : s.relayOnTimestamp ch ≠ 0)
    (hel : u32sub now (s.relayOnTimestamp ch) < s.autoOffSeconds ch * 1000) :
    getRemainingAutoOffSeconds s ch now =
      (s.autoOffSeconds ch * 1000 - u32sub now (s.relayOnTimestamp ch) + 999) / 1000 := by
  have hp := autoOff_product_exact (s.autoOffSeconds ch) (by omega)
  have hne : s.autoOffSeconds ch ≠ 0 := by omega
  have hwrap : (s.autoOffSeconds ch * 1000 - u32sub now (s.relayOnTimestamp ch) + 999) % U32
      = s.autoOffSeconds ch * 1000 - u32sub now (s.relayOnTimestamp ch) + 999 := by
    unfold U32
    omega
  simp [getRemainingAutoOffSeconds, Nat.not_le.mpr hch, hon, hne, hts, hp, Nat.not_le.mpr hel,
    hwrap]

/-- C5, evaluated where it fails. With `autoOffSeconds = 4294968` and the relay
on since uptime 1000, at uptime 1001 the function returns 1 where the claim gives
`ceil((4294968000 - 1) / 1000) = 4294968`, and at uptime 1704 it returns 0 where
the claim gives 4294968. With `autoOffSeconds = 4294967` (product exact) it
returns 0 at uptime 1001 where the claim gives 4294967: the rounding term
`remainingMs + 999` wraps. -/
theorem getRemaining_wraps :
    (run (setup bootReady) (timedOn 4294968)).relayState 0 = true ∧
    relayOnSince (run (setup bootReady) (timedOn 4294968)) 0 = some 1000 ∧
    getRemainingAutoOffSeconds (run (setup bootReady) (timedOn 4294968)) 0 1001 = 1 ∧
    (4294968 * 1000 - u32sub 1001 1000 + 999) / 1000 = 4294968 ∧
    getRemainingAutoOffSeconds (run (setup bootReady) (timedOn 4294968)) 0 1704 = 0 ∧
    (4294968 * 1000 - u32sub 1704 1000 + 999) / 1000 = 4294968 ∧
    (run (setup bootReady) (timedOn 4294967)).relayState 0 = true ∧
    relayOnSince (run (setup bootReady) (timedOn 4294967)) 0 = some 1000 ∧
    getRemainingAutoOffSeconds (run (setup bootReady) (timedOn 4294967)) 0 1001 = 0 ∧
    (4294967 * 1000 - u32sub 1001 1000 + 999) / 1000 = 4294967 := by
  decide

/-! ## The input scan -/

theorem setRelay_trace_not_performed (sig : Signals) (s : Board) (now ch : Nat) (isOn : Bool)
    (h : NUM_CHANNELS ≤ ch) : (setRelay sig s now ch isOn).trace = s.trace := by
  rw [setRelay_out_of_range sig s now ch isOn h]

/-- A call of `setRelay` with a channel in range leaves exactly one line of the
driver in the trace. -/
theorem setRelay_driverCalls_length (sig : Signals) (s : Board) (now ch : Nat) (isOn : Bool)
    (hch : ch < NUM_CHANNELS) :
    (driverCalls (setRelay sig s now ch isOn).trace).length =
      (driverCalls s.trace).length + 1 := by
  cases h : s.mcpReady (relayPin ch).mcpIndex
  · rw [setRelay_unreachable sig s now ch isOn hch h]
    simp [driverCalls, List.filterMap_append]
  · rw [setRelay_reachable sig s now ch isOn hch h, updateLedState_trace]
    simp [driverCalls, List.filterMap_append]

/-- The step of the input scan on a rising edge with a mapped relay. -/
theorem scanStep_rising_mapped (inp : TickInput) (s : Board) (c : Bool) (i m : Nat)
    (hprev : s.inputStatePrev i = false) (hcur : inp.pins i = true)
    (hm : m < NUM_CHANNELS) (hmap : s.inputMapping i = (m : Int)) :
    scanStep inp (s, c) i =
      ({ toggleRelay inp.sig { s with inputState := setAt s.inputState i true }
            (inp.tScan i) m with
          inputStatePrev := setAt s.inputStatePrev i true }, true) := by
  have hm' : (m : Int) < (NUM_CHANNELS : Int) := by exact_mod_cast hm
  simp only [scanStep, hprev, hcur, hmap, hm', Bool.not_false, Bool.and_self, if_true,
    Int.toNat_ofNat, Int.natCast_nonneg, and_self]
  congr 2
  simp [toggleRelay, setRelay_inputStatePrev]

/-- The step of the input scan on a rising edge without a mapped relay. -/
theorem scanStep_rising_unmapped (inp : TickInput) (s : Board) (c : Bool) (i : Nat)
    (hprev : s.inputStatePrev i = false) (hcur : inp.pins i = true)
    (hmap : s.inputMapping i < 0 ∨ (NUM_CHANNELS : Int) ≤ s.inputMapping i) :
    scanStep inp (s, c) i =
      ({ s with inputState := setAt s.inputState i true
                inputStatePrev := setAt s.inputStatePrev i true }, true) := by
  have hno : ¬ (0 ≤ s.inputMapping i ∧ s.inputMapping i < (NUM_CHANNELS : Int)) := by omega
  simp [scanStep, hprev, hcur, hno]

/-- The step of the input scan when there is no rising edge. -/
theorem scanStep_not_rising (inp : TickInput) (acc : Board × Bool) (i : Nat)
    (h : ¬ (inp.pins i = true ∧ acc.1.inputStatePrev i = false)) :
    scanStep inp acc i =
      if inp.pins i = false ∧ acc.1.inputStatePrev i = true then
        ({ acc.1 with inputState := setAt acc.1.inputState i false
                      inputStatePrev := setAt acc.1.inputStatePrev i false }, true)
      else
        ({ acc.1 with inputStatePrev := setAt acc.1.inputStatePrev i (inp.pins i) }, acc.2) := by
  cases hc : inp.pins i <;> cases hp : acc.1.inputStatePrev i <;>
    simp_all [scanStep]

/-- The step for input `i` stores the sampled level in `inputStatePrev[i]`. -/
theorem scanStep_inputStatePrev_self (inp : TickInput) (acc : Board × Bool) (i : Nat) :
    (scanStep inp acc i).1.inputStatePrev i = inp.pins i := by
  simp [scanStep, setAt]

/-- The step for input `i` leaves `inputStatePrev` of the other inputs alone. -/
theorem scanStep_inputStatePrev_other (inp : TickInput) (acc : Board × Bool) (i k : Nat)
    (hk : k ≠ i) : (scanStep inp acc i).1.inputStatePrev k = acc.1.inputStatePrev k := by
  simp only [scanStep, setAt, hk, if_false]
  split_ifs <;> simp [toggleRelay, setRelay_inputStatePrev]

/-- The value of `inputState[i]` after the step for input `i`. -/
theorem scanStep_inputState_self (inp : TickInput) (acc : Board × Bool) (i : Nat) :
    (scanStep inp acc i).1.inputState i =
      if inp.pins i = true ∧ acc.1.inputStatePrev i = false then true
      else if inp.pins i = false ∧ acc.1.inputStatePrev i = true then false
      else acc.1.inputState i := by
  cases hc : inp.pins i <;> cases hp : acc.1.inputStatePrev i <;>
    simp [scanStep, hc, hp, setAt]
  split_ifs <;> simp [toggleRelay, setRelay_inputState, setAt]

/-- The step for input `i` leaves `inputState` of the other inputs alone. -/
theorem scanStep_inputState_other (inp : TickInput) (acc : Board × Bool) (i k : Nat)
    (hk : k ≠ i) : (scanStep inp acc i).1.inputState k = acc.1.inputState k := by
  cases hc : inp.pins i <;> cases hp : acc.1.inputStatePrev i <;>
    simp [scanStep, hc, hp, setAt, hk]
  split_ifs <;> simp [toggleRelay, setRelay_inputState, setAt, hk]

/-- Steps for other inputs do not touch the two input variables of input `i`. -/
theorem scan_foldl_of_not_mem (inp : TickInput) (i : Nat) (l : List Nat) (hl : i ∉ l)
    (acc : Board × Bool) :
    (l.foldl (scanStep inp) acc).1.inputState i = acc.1.inputState i ∧
      (l.foldl (scanStep inp) acc).1.inputStatePrev i = acc.1.inputStatePrev i := by
  induction l generalizing acc with
  | nil => exact ⟨rfl, rfl⟩
  | cons j t ih =>
      have hj : i ≠ j := fun h => hl (h ▸ List.mem_cons_self _ _)
      have ht : i ∉ t := fun h => hl (List.mem_cons_of_mem _ h)
      rw [List.foldl_cons]
      obtain ⟨h1, h2⟩ := ih ht (scanStep inp acc j)
      exact ⟨h1.trans (scanStep_inputState_other inp acc j i hj),
        h2.trans (scanStep_inputStatePrev_other inp acc j i hj)⟩

/-- A scan over a list of distinct inputs treats input `i` exactly once. -/
theorem scan_foldl_of_mem (inp : TickInput) (i : Nat) (l : List Nat) (hl : i ∈ l)
    (hnd : l.Nodup) (acc : Board × Bool) :
    (l.foldl (scanStep inp) acc).1.inputState i = (scanStep inp acc i).1.inputState i ∧
      (l.foldl (scanStep inp) acc).1.inputStatePrev i = inp.pins i := by
  induction l generalizing acc with
  | nil => exact absurd hl (List.not_mem_nil _)
  | cons j t ih =>
      rw [List.foldl_cons]
      have hjt : j ∉ t := (List.nodup_cons.mp hnd).1
      by_cases hji : i = j
      · subst hji
        obtain ⟨h1, h2⟩ := scan_foldl_of_not_mem inp i t hjt (scanStep inp acc i)
        exact ⟨h1, h2.trans (scanStep_inputStatePrev_self inp acc i)⟩
      · have hit : i ∈ t := by
          rcases List.mem_cons.mp hl with h | h
          · exact absurd h hji
          · exact h
        obtain ⟨h1, h2⟩ := ih hit (List.nodup_cons.mp hnd).2 (scanStep inp acc j)
        refine ⟨h1.trans ?_, h2⟩
        rw [scanStep_inputState_self, scanStep_inputState_self,
          scanStep_inputState_other inp acc j i hji,
          scanStep_inputStatePrev_other inp acc j i hji]

theorem autoOffStep_inputs (inp : TickInput) (acc : Board × Bool) (i : Nat) :
    (autoOffStep inp acc i).1.inputState = acc.1.inputState ∧
      (autoOffStep inp acc i).1.inputStatePrev = acc.1.inputStatePrev := by
  unfold autoOffStep
  split
  · exact ⟨setRelay_inputState _ _ _ _ _, setRelay_inputStatePrev _ _ _ _ _⟩
  · exact ⟨rfl, rfl⟩

theorem autoOff_foldl_inputs (inp : TickInput) (l : List Nat) (acc : Board × Bool) :
    (l.foldl (autoOffStep inp) acc).1.inputState = acc.1.inputState ∧
      (l.foldl (autoOffStep inp) acc).1.inputStatePrev = acc.1.inputStatePrev := by
  induction l generalizing acc with
  | nil => exact ⟨rfl, rfl⟩
  | cons j t ih =>
      rw [List.foldl_cons]
      obtain ⟨h1, h2⟩ := ih (autoOffStep inp acc j)
      obtain ⟨h3, h4⟩ := autoOffStep_inputs inp acc j
      exact ⟨h1.trans h3, h2.trans h4⟩

theorem ntpStep_inputs (inp : TickInput) (s : Board) :
    (ntpStep inp s).inputState = s.inputState ∧
      (ntpStep inp s).inputStatePrev = s.inputStatePrev := by
  unfold ntpStep
  split
  · exact ⟨updateLedState_inputState _ _ _, updateLedState_inputStatePrev _ _ _⟩
  · exact ⟨rfl, rfl⟩

/-- After the scan the two input variables keep their values to the end of the
pass. -/
theorem loop_inputs (inp : TickInput) (s : Board) :
    (loop inp s).inputState = (scanInputs inp (s, false)).1.inputState ∧
      (loop inp s).inputStatePrev = (scanInputs inp (s, false)).1.inputStatePrev := by
  obtain ⟨h1, h2⟩ := autoOff_foldl_inputs inp (List.range NUM_CHANNELS) (scanInputs inp (s, false))
  obtain ⟨h3, h4⟩ := ntpStep_inputs inp (autoOffSweep inp (scanInputs inp (s, false))).1
  simp only [loop]
  split
  · exact ⟨h3.trans h1, h4.trans h2⟩
  · exact ⟨h3.trans h1, h4.trans h2⟩

/-- The input variables of input `i` at the end of one pass of `loop`. -/
theorem loop_input_self (inp : TickInput) (s : Board) (i : Nat) (hi : i < NUM_CHANNELS) :
    (loop inp s).inputState i =
        (if inp.pins i = true ∧ s.inputStatePrev i = false then true
         else if inp.pins i = false ∧ s.inputStatePrev i = true then false
         else s.inputState i) ∧
      (loop inp s).inputStatePrev i = inp.pins i := by
  obtain ⟨h1, h2⟩ := loop_inputs inp s
  obtain ⟨h3, h4⟩ := scan_foldl_of_mem inp i (List.range NUM_CHANNELS)
    (List.mem_range.mpr hi) (List.nodup_range _) (s, false)
  rw [h1, h2]
  exact ⟨h3.trans (scanStep_inputState_self inp (s, false) i), h4⟩

/-! ## C6: rising edge -/

/-- C6: let input `i` be in range, its previous sample false and its current
sample true. Then `inputState[i]` is true after the step of the scan and at the
end of the pass of `loop`. If `inputMapping[i]` is a channel `m` in 0..11, the
step is one call `toggleRelay(m)`, that is `setRelay(m, !relayState[m])`, placed
between the assignments to `inputState[i]` and to `inputStatePrev[i]`, and the
driver is entered exactly once. If `inputMapping[i]` is no channel, no relay
variable changes and nothing is written. Scenario: with input 3 mapped to relay 7
and relay 7 off, a pass with a rising edge on input 3 ends with relay 7 on and
broadcasts one snapshot whose `outputs[7]` is true. -/
theorem rising_edge_toggles_mapped_relay (inp : TickInput) (s : Board) (c : Bool) (i : Nat)
    (hi : i < NUM_CHANNELS) (hprev : s.inputStatePrev i = false) (hcur : inp.pins i = true) :
    (loop inp s).inputState i = true ∧
    (scanStep inp (s, c) i).1.inputState i = true ∧
    (∀ m : Nat, m < NUM_CHANNELS → s.inputMapping i = (m : Int) →
      scanStep inp (s, c) i =
        ({ toggleRelay inp.sig { s with inputState := setAt s.inputState i true }
              (inp.tScan i) m with
            inputStatePrev := setAt s.inputStatePrev i true }, true) ∧
      toggleRelay inp.sig { s with inputState := setAt s.inputState i true } (inp.tScan i) m =
        setRelay inp.sig { s with inputState := setAt s.inputState i true } (inp.tScan i) m
          (!s.relayState m) ∧
      (driverCalls (scanStep inp (s, c) i).1.trace).length =
        (driverCalls s.trace).length + 1) ∧
    (s.inputMapping i < 0 ∨ (NUM_CHANNELS : Int) ≤ s.inputMapping i →
      (scanStep inp (s, c) i).1.relayState = s.relayState ∧
      (scanStep inp (s, c) i).1.relayOnTimestamp = s.relayOnTimestamp ∧
      (scanStep inp (s, c) i).1.trace = s.trace) ∧
    ((setup bootMap37).inputMapping 3 = 7 ∧
      (setup bootMap37).relayState 7 = false ∧
      (setup bootMap37).inputStatePrev 3 = false ∧
      tickEdge3.pins 3 = true ∧
      (loop tickEdge3 (setup bootMap37)).relayState 7 = true ∧
      (broadcasts (loop tickEdge3 (setup bootMap37)).trace).map
        (fun snap => snap.outputs.getD 7 false) = [true]) := by
  refine ⟨?_, ?_, ?_, ?_, by decide⟩
  · rw [(loop_input_self inp s i hi).1]
    simp [hprev, hcur]
  · rw [scanStep_inputState_self]
    simp [hprev, hcur]
  · intro m hm hmap
    refine ⟨scanStep_rising_mapped inp s c i m hprev hcur hm hmap, rfl, ?_⟩
    rw [scanStep_rising_mapped inp s c i m hprev hcur hm hmap]
    exact setRelay_driverCalls_length _ _ _ _ _ hm
  · intro hmap
    rw [scanStep_rising_unmapped inp s c i hprev hcur hmap]
    exact ⟨rfl, rfl, rfl⟩

/-- C6 at the scenario of the claim: input 3 mapped to relay 7 on the freshly
started board, rising edge on input 3. -/
theorem rising_edge_toggles_mapped_relay_witness :
    (3 : Nat) < NUM_CHANNELS ∧ (setup bootMap37).inputStatePrev 3 = false ∧
    tickEdge3.pins 3 = true ∧
    (loop tickEdge3 (setup bootMap37)).inputState 3 = true ∧
    (driverCalls (scanStep tickEdge3 (setup bootMap37, false) 3).1.trace).length =
      (driverCalls (setup bootMap37).trace).length + 1 :=
  ⟨by decide, by decide, by decide,
   (rising_edge_toggles_mapped_relay tickEdge3 (setup bootMap37) false 3
      (by decide) (by decide) (by decide)).1,
   ((rising_edge_toggles_mapped_relay tickEdge3 (setup bootMap37) false 3
      (by decide) (by decide) (by decide)).2.2.1 7 (by decide) (by decide)).2.2⟩

/-! ## C7: steps of the scan without a rising edge -/

/-- C7: a step of the input scan that is not a rising edge changes no relay
variable of any channel and writes nothing; on a falling edge it clears
`inputState[i]`; without an edge it leaves `inputState` as it is; and after every
step, rising edge included, `inputStatePrev[i]` is the sampled level. -/
theorem scan_without_rising_edge (inp : TickInput) (acc : Board × Bool) (i : Nat) :
    (¬ (inp.pins i = true ∧ acc.1.inputStatePrev i = false) →
      (scanStep inp acc i).1.relayState = acc.1.relayState ∧
      (scanStep inp acc i).1.relayOnTimestamp = acc.1.relayOnTimestamp ∧
      (∀ j, relayOnSince (scanStep inp acc i).1 j = relayOnSince acc.1 j) ∧
      (scanStep inp acc i).1.trace = acc.1.trace) ∧
    (inp.pins i = false ∧ acc.1.inputStatePrev i = true →
      (scanStep inp acc i).1.inputState i = false) ∧
    (inp.pins i = acc.1.inputStatePrev i →
      (scanStep inp acc i).1.inputState = acc.1.inputState) ∧
    (scanStep inp acc i).1.inputStatePrev i = inp.pins i := by
  refine ⟨?_, ?_, ?_, scanStep_inputStatePrev_self inp acc i⟩
  · intro h
    rw [scanStep_not_rising inp acc i h]
    split
    · exact ⟨rfl, rfl, fun j => rfl, rfl⟩
    · exact ⟨rfl, rfl, fun j => rfl, rfl⟩
  · intro h
    rw [scanStep_inputState_self]
    simp [h.1, h.2]
  · intro h
    have hn : ¬ (inp.pins i = true ∧ acc.1.inputStatePrev i = false) := by
      rw [h]
      cases acc.1.inputStatePrev i <;> simp
    have hf : ¬ (inp.pins i = false ∧ acc.1.inputStatePrev i = true) := by
      rw [h]
      cases acc.1.inputStatePrev i <;> simp
    rw [scanStep_not_rising inp acc i hn, if_neg hf]

/-- C7 at a falling edge: input 3 was high in the previous pass and reads low. -/
theorem scan_without_rising_edge_witness :
    ((tickQuiet 200).pins 3 = false ∧
      (loop tickEdge3 (setup bootMap37)).inputStatePrev 3 = true) ∧
    (scanStep (tickQuiet 200) (loop tickEdge3 (setup bootMap37), false) 3).1.relayState =
      (loop tickEdge3 (setup bootMap37)).relayState ∧
    (scanStep (tickQuiet 200) (loop tickEdge3 (setup bootMap37), false) 3).1.inputState 3 =
      false ∧
    (scanStep (tickQuiet 200) (loop tickEdge3 (setup bootMap37), false) 3).1.inputStatePrev 3 =
      false :=
  ⟨by decide,
   ((scan_without_rising_edge (tickQuiet 200) (loop tickEdge3 (setup bootMap37), false) 3).1
      (by decide)).1,
   (scan_without_rising_edge (tickQuiet 200) (loop tickEdge3 (setup bootMap37), false) 3).2.1
      (by decide),
   (scan_without_rising_edge (tickQuiet 200)
      (loop tickEdge3 (setup bootMap37), false) 3).2.2.2⟩

/-! ## Properties kept along every run -/

theorem kept_updateLedState {P : Board → Prop} (hP : RelayInvariant P)
    (sig : Signals) (s : Board) (now : Nat) (h : P s) : P (updateLedState sig s now) :=
  hP.congr s _ (updateLedState_relayState sig s now)
    (updateLedState_relayOnTimestamp sig s now) (updateLedState_mcpReady sig s now) h

theorem kept_sendState {P : Board → Prop} (hP : RelayInvariant P)
    (sig : Signals) (s : Board) (now : Nat) (h : P s) : P (sendState sig s now) :=
  hP.congr s _ rfl rfl rfl h

theorem kept_toggleRelay {P : Board → Prop} (hP : RelayInvariant P)
    (sig : Signals) (s : Board) (now ch : Nat) (h : P s) : P (toggleRelay sig s now ch) :=
  hP.keep sig s now ch _ h

theorem kept_foldl {P : Board → Prop} (f : Board × Bool → Nat → Board × Bool)
    (hf : ∀ acc i, P acc.1 → P (f acc i).1) (l : List Nat) (acc : Board × Bool)
    (h : P acc.1) : P (l.foldl f acc).1 := by
  induction l generalizing acc with
  | nil => exact h
  | cons j t ih => exact ih (f acc j) (hf acc j h)

theorem kept_allOff {P : Board → Prop} (hP : RelayInvariant P)
    (sig : Signals) (now : Nat) (l : List Nat) (s : Board) (h : P s) :
    P (l.foldl (allOffStep sig now) s) := by
  induction l generalizing s with
  | nil => exact h
  | cons j t ih =>
      apply ih
      unfold allOffStep
      split
      · exact hP.keep sig s now j false h
      · exact h

theorem kept_dispatch {P : Board → Prop} (hP : RelayInvariant P)
    (sig : Signals) (s : Board) (now : Nat) (c : Command) (h : P s) :
    P (dispatch sig s now c) := by
  cases c with
  | toggle ch =>
      show P (ite _ _ _)
      split
      · exact kept_toggleRelay hP sig s now ch h
      · exact h
  | set ch val =>
      show P (ite _ _ _)
      split
      · exact hP.keep sig s now ch val h
      · exact h
  | map input output =>
      show P (ite _ _ _)
      split
      · exact hP.congr s _ rfl rfl rfl h
      · exact h
  | timer ch secs =>
      show P (ite _ _ _)
      split
      · exact hP.congr s _ rfl rfl rfl h
      · exact h
  | wifi => exact hP.congr s _ rfl rfl rfl h
  | alloff => exact kept_allOff hP sig now _ s h
  | other => exact h

theorem kept_onWebSocketData {P : Board → Prop} (hP : RelayInvariant P)
    (sig : Signals) (s : Board) (now : Nat) (c : Option Command) (h : P s) :
    P (onWebSocketData sig s now c) := by
  cases c with
  | none => exact h
  | some c =>
      cases c
      case wifi => exact kept_dispatch hP sig s now Command.wifi h
      all_goals
        exact kept_sendState hP sig (dispatch sig s now _) now (kept_dispatch hP sig s now _ h)

theorem kept_scanStep {P : Board → Prop} (hP : RelayInvariant P)
    (inp : TickInput) (acc : Board × Bool) (i : Nat) (h : P acc.1) :
    P (scanStep inp acc i).1 := by
  obtain ⟨s, c⟩ := acc
  by_cases hr : inp.pins i = true ∧ s.inputStatePrev i = false
  · by_cases hmap : 0 ≤ s.inputMapping i ∧ s.inputMapping i < (NUM_CHANNELS : Int)
    · have hm : (s.inputMapping i).toNat < NUM_CHANNELS := by
        have := hmap.2
        unfold NUM_CHANNELS at *
        omega
      have he : s.inputMapping i = ((s.inputMapping i).toNat : Int) :=
        (Int.toNat_of_nonneg hmap.1).symm
      rw [scanStep_rising_mapped inp s c i _ hr.2 hr.1 hm he]
      exact hP.congr (toggleRelay inp.sig _ (inp.tScan i) (s.inputMapping i).toNat) _
        rfl rfl rfl (kept_toggleRelay hP _ _ _ _ (hP.congr s _ rfl rfl rfl h))
    · rw [scanStep_rising_unmapped inp s c i hr.2 hr.1 (by omega)]
      exact hP.congr s _ rfl rfl rfl h
  · rw [scanStep_not_rising inp (s, c) i hr]
    split
    · exact hP.congr s _ rfl rfl rfl h
    · exact hP.congr s _ rfl rfl rfl h

theorem kept_autoOffStep {P : Board → Prop} (hP : RelayInvariant P)
    (inp : TickInput) (acc : Board × Bool) (i : Nat) (h : P acc.1) :
    P (autoOffStep inp acc i).1 := by
  unfold autoOffStep
  split
  · exact hP.keep _ _ _ _ _ h
  · exact h

theorem kept_loop {P : Board → Prop} (hP : RelayInvariant P)
    (inp : TickInput) (s : Board) (h : P s) : P (loop inp s) := by
  have h1 : P (scanInputs inp (s, false)).1 :=
    kept_foldl _ (fun acc i => kept_scanStep hP inp acc i) _ _ h
  have h2 : P (autoOffSweep inp (scanInputs inp (s, false))).1 :=
    kept_foldl _ (fun acc i => kept_autoOffStep hP inp acc i) _ _ h1
  have h3 : P (ntpStep inp (autoOffSweep inp (scanInputs inp (s, false))).1) := by
    unfold ntpStep
    split
    · exact hP.congr (updateLedState inp.sig _ inp.tEnd) _ rfl rfl rfl
        (kept_updateLedState hP _ _ _ h2)
    · exact h2
  simp only [loop]
  split
  · exact kept_sendState hP _ _ _ h3
  · exact h3

theorem kept_step {P : Board → Prop} (hP : RelayInvariant P)
    (s : Board) (a : Action) (h : P s) : P (step s a) := by
  unfold step
  split
  · exact h
  · cases a with
    | callSetRelay sig now ch isOn => exact hP.keep sig s now ch isOn h
    | callToggleRelay sig now ch => exact kept_toggleRelay hP sig s now ch h
    | wsData sig now cmd => exact kept_onWebSocketData hP sig s now cmd h
    | wsConnect sig now =>
        exact kept_updateLedState hP sig _ now (hP.congr s _ rfl rfl rfl h)
    | wsDisconnect sig now => exact kept_updateLedState hP sig s now h
    | tick inp => exact kept_loop hP inp s h

theorem kept_run {P : Board → Prop} (hP : RelayInvariant P)
    (as : List Action) (s : Board) (h : P s) : P (run s as) := by
  induction as generalizing s with
  | nil => exact h
  | cons a t ih => exact ih (step s a) (kept_step hP s a h)

/-- A property kept by `setRelay` that holds after `setup` holds in every
reachable state. -/
theorem kept_reachable {P : Board → Prop} (hP : RelayInvariant P)
    (h0 : ∀ b, P (setup b)) (s : Board) (hs : Reachable s) : P s := by
  obtain ⟨b, as, rfl⟩ := hs
  exact kept_run hP as _ (h0 b)

/-! ## C8: the indicator priority list -/

theorem setState_s_state (led : statusled.Led) (now : Nat) (st : statusled.State) :
    (statusled.setState led now st).s_state = st := by
  unfold statusled.setState
  split
  · next h => exact h.symm
  · rfl

theorem anyRelayOn_iff (s : Board) :
    anyRelayOn s = true ↔ ∃ ch, ch < NUM_CHANNELS ∧ s.relayState ch = true := by
  simp [anyRelayOn, List.any_eq_true, List.mem_range]

theorem relaysBacked_invariant : RelayInvariant RelaysBacked where
  congr := by
    intro s t h1 _ h3 h ch hch
    rw [h1] at hch
    rw [h3]
    exact h ch hch
  keep := by
    intro sig s now ch isOn h j hj
    by_cases hch : ch < NUM_CHANNELS
    · cases hr : s.mcpReady (relayPin ch).mcpIndex
      · rw [setRelay_unreachable sig s now ch isOn hch hr] at hj ⊢
        exact h j hj
      · rw [setRelay_mcpReady]
        rw [setRelay_reachable sig s now ch isOn hch hr, updateLedState_relayState] at hj
        by_cases hjc : j = ch
        · subst hjc
          exact ⟨hch, hr⟩
        · have hj2 : setAt s.relayState ch isOn j = true := hj
          rw [setAt_other _ _ _ _ hjc] at hj2
          exact h j hj2
    · rw [setRelay_out_of_range sig s now ch isOn (Nat.le_of_not_lt hch)] at hj ⊢
      exact h j hj

theorem setup_relaysBacked (b : BootInput) : RelaysBacked (setup b) := by
  intro ch hch
  simp [setup, updateLedState_relayState] at hch

/-- In every reachable state a relay that is on has its expander chip ready. -/
theorem reachable_relaysBacked (s : Board) (hs : Reachable s) : RelaysBacked s :=
  kept_reachable relaysBacked_invariant setup_relaysBacked s hs

/-- C8: the state `updateLedState` selects is the first match of the priority
list (hardware error if both chips are unreachable, relay active if any relay is
on, observer connected if the client count is positive, ready if connected and
time-synced, connected without time if connected, provisioning only otherwise),
for every combination of the inputs. In particular, with a relay on and an
observer connected the state is relay-active whenever the hardware-error entry
does not apply, which is the case in every reachable state. -/
theorem updateLedState_priority (sig : Signals) (s : Board) (now : Nat) :
    (updateLedState sig s now).led.s_state =
      indicatorPriority (!s.mcpReady 0 && !s.mcpReady 1)
        (decide (∃ ch, ch < NUM_CHANNELS ∧ s.relayState ch = true))
        sig.wsCount sig.wifiConnected sig.timeSynced ∧
    ((∃ ch, ch < NUM_CHANNELS ∧ s.relayState ch = true) → 0 < sig.wsCount →
      (s.mcpReady 0 = true ∨ s.mcpReady 1 = true) →
      (updateLedState sig s now).led.s_state = .ST_RELAY_ACTIVE) ∧
    (Reachable s → (∃ ch, ch < NUM_CHANNELS ∧ s.relayState ch = true) → 0 < sig.wsCount →
      (updateLedState sig s now).led.s_state = .ST_RELAY_ACTIVE) := by
  have hany := anyRelayOn_iff s
  have key : ∀ hw : ¬ ((!s.mcpReady 0 && !s.mcpReady 1) = true),
      (∃ ch, ch < NUM_CHANNELS ∧ s.relayState ch = true) →
      (updateLedState sig s now).led.s_state = .ST_RELAY_ACTIVE := by
    intro hw hex
    simp only [updateLedState, if_neg hw, if_pos (hany.mpr hex)]
    exact setState_s_state _ _ _
  refine ⟨?_, ?_, ?_⟩
  · by_cases hw : (!s.mcpReady 0 && !s.mcpReady 1) = true
    · simp only [updateLedState, indicatorPriority, if_pos hw]
      exact setState_s_state _ _ _
    · by_cases ha : anyRelayOn s = true
      · rw [key hw (hany.mp ha)]
        simp [indicatorPriority, hw, hany.mp ha]
      · have hne : ¬ ∃ ch, ch < NUM_CHANNELS ∧ s.relayState ch = true := fun h => ha (hany.mpr h)
        simp only [updateLedState, indicatorPriority, if_neg hw, if_neg ha, hne, decide_False,
          Bool.false_eq_true, if_false, decide_eq_true_eq]
        split_ifs <;> exact setState_s_state _ _ _
  · intro hex _ hr
    refine key ?_ hex
    rcases hr with hr | hr <;> simp [hr]
  · intro hs hex _
    obtain ⟨ch, hch, hon⟩ := hex
    have hb := (reachable_relaysBacked s hs ch hon).2
    have hlt := relayPin_mcpIndex_lt ch
    refine key ?_ ⟨ch, hch, hon⟩
    have h01 : (relayPin ch).mcpIndex = 0 ∨ (relayPin ch).mcpIndex = 1 := by omega
    rcases h01 with h0 | h1
    · rw [h0] at hb
      simp [hb]
    · rw [h1] at hb
      simp [hb]

/-- C8 on the board where input 3 has just switched relay 7 on, with two
clients connected. -/
theorem updateLedState_priority_witness :
    Reachable (run (setup bootMap37) [Action.tick tickEdge3]) ∧
    (∃ ch, ch < NUM_CHANNELS ∧
      (run (setup bootMap37) [Action.tick tickEdge3]).relayState ch = true) ∧
    0 < sigObserved.wsCount ∧
    (updateLedState sigObserved (run (setup bootMap37) [Action.tick tickEdge3]) 300).led.s_state
      = .ST_RELAY_ACTIVE :=
  ⟨⟨bootMap37, _, rfl⟩, ⟨7, by decide, by decide⟩, by decide,
   (updateLedState_priority sigObserved (run (setup bootMap37) [Action.tick tickEdge3]) 300).2.2
     ⟨bootMap37, _, rfl⟩ ⟨7, by decide, by decide⟩ (by decide)⟩

/-! ## C9: `statusled::setState` -/

/-- C9: `setState(s)` with the current state changes nothing, so the phase
origin keeps its value; with a different state it stores `s` and sets the phase
origin to `now`. -/
theorem setState_same_or_changed (led : statusled.Led) (now : Nat) (st : statusled.State) :
    (st = led.s_state → statusled.setState led now st = led) ∧
    (st ≠ led.s_state →
      (statusled.setState led now st).s_state = st ∧
      (statusled.setState led now st).s_cycleStart = now) := by
  constructor
  · intro h
    simp [statusled.setState, h]
  · intro h
    simp [statusled.setState, h]

/-- C9 on an LED in the booting state since uptime 1000, at uptime 5000. -/
theorem setState_same_or_changed_witness :
    (statusled.setState ledBooting 5000 .ST_BOOTING).s_cycleStart = 1000 ∧
    (statusled.setState ledBooting 5000 .ST_READY).s_state = .ST_READY ∧
    (statusled.setState ledBooting 5000 .ST_READY).s_cycleStart = 5000 :=
  ⟨congrArg statusled.Led.s_cycleStart
     ((setState_same_or_changed ledBooting 5000 .ST_BOOTING).1 (by decide)),
   ((setState_same_or_changed ledBooting 5000 .ST_READY).2 (by decide)).1,
   ((setState_same_or_changed ledBooting 5000 .ST_READY).2 (by decide)).2⟩

/-! ## C10: the blink pattern -/

/-- What the table says about the blinking states: the period is positive, even
and fits `uint16_t`, and the colour sent for "on" is not black. -/
theorem blink_table (st : statusled.State)
    (h : (statusled.stateDef st).pattern = .PAT_BLINK) :
    0 < (statusled.stateDef st).periodMs ∧ (statusled.stateDef st).periodMs < 65536 ∧
    2 * ((statusled.stateDef st).periodMs / 2) = (statusled.stateDef st).periodMs ∧
    statusled.setColor (statusled.stateDef st).color 255 ≠ ⟨0, 0, 0⟩ := by
  revert h
  cases st <;> decide

/-- The narrowing of `elapsed % periodMs` to `uint16_t` loses nothing. -/
theorem pos_fits_uint16 (e p : Nat) (hp : 0 < p) (hp2 : p < 65536) :
    (e % p) % 65536 = e % p :=
  Nat.mod_eq_of_lt (lt_trans (Nat.mod_lt e hp) hp2)

/-- C10: in a state whose pattern is Blink, for every `now` and every phase
origin, `update()` sends the colour of the state (as `setColor(sd.color)` yields
it) if `(now - s_cycleStart) mod periodMs < periodMs / 2` and sends (0,0,0)
otherwise; the two cases are distinguishable, and `periodMs` is positive and
even, so the first half of every period is on. The difference is the unsigned
32 bit one, which is `now - s_cycleStart` when the counter has not wrapped. -/
theorem update_blink_half_period (pulseDim : Nat → Nat → Nat) (led : statusled.Led)
    (now : Nat) (h : (statusled.stateDef led.s_state).pattern = .PAT_BLINK) :
    (statusled.update pulseDim led now =
      if u32sub now led.s_cycleStart % (statusled.stateDef led.s_state).periodMs
          < (statusled.stateDef led.s_state).periodMs / 2
      then statusled.setColor (statusled.stateDef led.s_state).color 255
      else ⟨0, 0, 0⟩) ∧
    (statusled.update pulseDim led now =
        statusled.setColor (statusled.stateDef led.s_state).color 255 ↔
      u32sub now led.s_cycleStart % (statusled.stateDef led.s_state).periodMs
        < (statusled.stateDef led.s_state).periodMs / 2) ∧
    (statusled.update pulseDim led now = ⟨0, 0, 0⟩ ↔
      ¬ u32sub now led.s_cycleStart % (statusled.stateDef led.s_state).periodMs
        < (statusled.stateDef led.s_state).periodMs / 2) ∧
    0 < (statusled.stateDef led.s_state).periodMs ∧
    2 * ((statusled.stateDef led.s_state).periodMs / 2) =
      (statusled.stateDef led.s_state).periodMs ∧
    (led.s_cycleStart ≤ now → now < U32 →
      u32sub now led.s_cycleStart = now - led.s_cycleStart) := by
  obtain ⟨hpos, hlt, heven, hcol⟩ := blink_table led.s_state h
  have hupd : statusled.update pulseDim led now =
      if u32sub now led.s_cycleStart % (statusled.stateDef led.s_state).periodMs
          < (statusled.stateDef led.s_state).periodMs / 2
      then statusled.setColor (statusled.stateDef led.s_state).color 255
      else ⟨0, 0, 0⟩ := by
    simp only [statusled.update, h, pos_fits_uint16 _ _ hpos hlt]
    rfl
  refine ⟨hupd, ?_, ?_, hpos, heven, fun h1 h2 => u32sub_of_le now _ h1 h2⟩
  · rw [hupd]
    constructor
    · intro he
      by_contra hn
      rw [if_neg hn] at he
      exact hcol he.symm
    · intro hc
      rw [if_pos hc]
  · rw [hupd]
    constructor
    · intro he hc
      rw [if_pos hc] at he
      exact hcol he
    · intro hn
      rw [if_neg hn]

/-- C10 on the booting state (white, period 200 ms) entered at uptime 1000:
on at uptime 1099, off at uptime 1100. -/
theorem update_blink_half_period_witness :
    (statusled.stateDef ledBooting.s_state).pattern = .PAT_BLINK ∧
    statusled.update (fun _ _ => 0) ledBooting 1099 = ⟨254, 254, 254⟩ ∧
    statusled.update (fun _ _ => 0) ledBooting 1100 = ⟨0, 0, 0⟩ :=
  ⟨by decide,
   ((update_blink_half_period (fun _ _ => 0) ledBooting 1099 (by decide)).1).trans (by decide),
   (update_blink_half_period (fun _ _ => 0) ledBooting 1100 (by decide)).2.2.1.mpr (by decide)⟩

/-! ## C11: the solid pattern -/

/-- In a solid state `update()` sends `setColor(sd.color)`, whatever `now` and
the phase origin are. -/
theorem update_solid (pulseDim : Nat → Nat → Nat) (led : statusled.Led) (now : Nat)
    (h : (statusled.stateDef led.s_state).pattern = .PAT_SOLID) :
    statusled.update pulseDim led now =
      statusled.setColor (statusled.stateDef led.s_state).color 255 := by
  simp only [statusled.update, h]

/-- With the default factor 255 a channel value `v` of a colour is sent as
`v * 255 / 256`, which is `v - 1` for every `v` from 1 to 255. -/
theorem setColor_full_loses_one (v : Nat) (h1 : 0 < v) (h2 : v ≤ 255) :
    (v * 255 / 256) % 256 = v - 1 := by
  obtain ⟨w, rfl⟩ : ∃ w, v = w + 1 := ⟨v - 1, by omega⟩
  have hdiv : (w + 1) * 255 / 256 = w := by omega
  rw [hdiv]
  omega

/-- C11, evaluated where it fails: in the ready state (solid green, table
colour (0,255,0)) `update()` sends (0,254,0) at every uptime tried; in the
state connected-without-time (solid cyan, (0,255,255)) it sends (0,254,254). The
claim asks for the channel values of the table. -/
theorem update_solid_dims_colour :
    (statusled.stateDef ledReady.s_state).pattern = .PAT_SOLID ∧
    (statusled.stateDef ledReady.s_state).color = ⟨0, 255, 0⟩ ∧
    statusled.update (fun _ _ => 0) ledReady 1000 = ⟨0, 254, 0⟩ ∧
    statusled.update (fun _ _ => 0) ledReady 987654 = ⟨0, 254, 0⟩ ∧
    (statusled.stateDef .ST_WIFI_NO_NTP).color = ⟨0, 255, 255⟩ ∧
    statusled.update (fun _ _ => 0) { s_state := .ST_WIFI_NO_NTP, s_cycleStart := 0 } 5
      = ⟨0, 254, 254⟩ := by
  decide

/-! ## C19: the pattern table -/

/-- C19: `STATES` has 11 entries, the 11 enumerators have the distinct values
0..10, so `STATES[s_state]` is in bounds for every state and every entry belongs
to exactly one state; every entry that is not solid has `periodMs > 0`, and the
flash entry has `onMs ≤ periodMs`. Hence the divisor of `elapsed % periodMs` in
`update()` is never zero. -/
theorem states_table_total (st : statusled.State) :
    statusled.STATES.length = 11 ∧
    st.toNat < statusled.STATES.length ∧
    statusled.STATES[st.toNat]? = some (statusled.stateDef st) ∧
    (∀ st2 : statusled.State, st2.toNat = st.toNat → st2 = st) ∧
    (∀ n, n < statusled.STATES.length → ∃ st2 : statusled.State, st2.toNat = n) ∧
    ((statusled.stateDef st).pattern ≠ .PAT_SOLID → 0 < (statusled.stateDef st).periodMs) ∧
    ((statusled.stateDef st).pattern = .PAT_FLASH →
      (statusled.stateDef st).onMs ≤ (statusled.stateDef st).periodMs) := by
  refine ⟨by decide, by cases st <;> decide, by cases st <;> decide, ?_, ?_,
    by cases st <;> decide, by cases st <;> decide⟩
  · intro st2
    cases st <;> cases st2 <;> decide
  · intro n hn
    have hn' : n < 11 := hn
    interval_cases n
    · exact ⟨.ST_OFF, rfl⟩
    · exact ⟨.ST_BOOTING, rfl⟩
    · exact ⟨.ST_AP_ONLY, rfl⟩
    · exact ⟨.ST_WIFI_CONNECTING, rfl⟩
    · exact ⟨.ST_WIFI_NO_NTP, rfl⟩
    · exact ⟨.ST_READY, rfl⟩
    · exact ⟨.ST_RELAY_ACTIVE, rfl⟩
    · exact ⟨.ST_MCP_ERROR, rfl⟩
    · exact ⟨.ST_CONFIG_ERROR, rfl⟩
    · exact ⟨.ST_OTA_UPDATE, rfl⟩
    · exact ⟨.ST_WS_CLIENT, rfl⟩

/-- C19 at the flash state (observer connected): period 3000 ms, on for 50 ms. -/
theorem states_table_total_witness :
    (statusled.stateDef .ST_WS_CLIENT).pattern ≠ .PAT_SOLID ∧
    0 < (statusled.stateDef .ST_WS_CLIENT).periodMs ∧
    (statusled.stateDef .ST_WS_CLIENT).onMs ≤ (statusled.stateDef .ST_WS_CLIENT).periodMs :=
  ⟨by decide,
   (states_table_total .ST_WS_CLIENT).2.2.2.2.2.1 (by decide),
   (states_table_total .ST_WS_CLIENT).2.2.2.2.2.2 (by decide)⟩

/-! ## Broadcasts in the trace -/

theorem broadcasts_append (t u : List Event) :
    broadcasts (t ++ u) = broadcasts t ++ broadcasts u := by
  simp [broadcasts, List.filterMap_append]

theorem driverCalls_append (t u : List Event) :
    driverCalls (t ++ u) = driverCalls t ++ driverCalls u := by
  simp [driverCalls, List.filterMap_append]

/-- `setRelay` sends no snapshot. -/
theorem setRelay_broadcasts (sig : Signals) (s : Board) (now ch : Nat) (isOn : Bool) :
    broadcasts (setRelay sig s now ch isOn).trace = broadcasts s.trace := by
  by_cases hch : ch < NUM_CHANNELS
  · cases h : s.mcpReady (relayPin ch).mcpIndex
    · rw [setRelay_unreachable sig s now ch isOn hch h]
      simp [broadcasts_append, broadcasts]
    · rw [setRelay_reachable sig s now ch isOn hch h, updateLedState_trace]
      simp [broadcasts_append, broadcasts]
  · rw [setRelay_out_of_range sig s now ch isOn (Nat.le_of_not_lt hch)]

theorem allOff_foldl_broadcasts (sig : Signals) (now : Nat) (l : List Nat) (s : Board) :
    broadcasts (l.foldl (allOffStep sig now) s).trace = broadcasts s.trace := by
  induction l generalizing s with
  | nil => rfl
  | cons j t ih =>
      rw [List.foldl_cons, ih]
      unfold allOffStep
      split
      · exact setRelay_broadcasts _ _ _ _ _
      · rfl

/-- No branch of the command handler sends a snapshot by itself. -/
theorem dispatch_broadcasts (sig : Signals) (s : Board) (now : Nat) (c : Command) :
    broadcasts (dispatch sig s now c).trace = broadcasts s.trace := by
  cases c with
  | toggle ch =>
      show broadcasts (ite _ _ _ : Board).trace = _
      split
      · exact setRelay_broadcasts _ _ _ _ _
      · rfl
  | set ch val =>
      show broadcasts (ite _ _ _ : Board).trace = _
      split
      · exact setRelay_broadcasts _ _ _ _ _
      · rfl
  | map input output =>
      show broadcasts (ite _ _ _ : Board).trace = _
      split <;> rfl
  | timer ch secs =>
      show broadcasts (ite _ _ _ : Board).trace = _
      split <;> rfl
  | wifi =>
      show broadcasts (s.trace ++ [Event.restart]) = _
      simp [broadcasts_append, broadcasts]
  | alloff => exact allOff_foldl_broadcasts sig now _ s
  | other => rfl

/-- A handled command other than `wifi` is `sendState()` after its branch. -/
theorem onWebSocketData_of_ne_wifi (sig : Signals) (s : Board) (now : Nat) (c : Command)
    (hc : c ≠ Command.wifi) :
    onWebSocketData sig s now (some c) = sendState sig (dispatch sig s now c) now := by
  cases c <;> first | rfl | exact absurd rfl hc

/-- After a command other than `wifi` the trace holds one snapshot more, built
from the state the branch of the command left. -/
theorem command_sends_one_broadcast_aux (sig : Signals) (s : Board) (now : Nat) (c : Command)
    (hc : c ≠ Command.wifi) :
    broadcasts (onWebSocketData sig s now (some c)).trace =
      broadcasts s.trace ++ [buildStateJson sig (dispatch sig s now c) now] := by
  rw [onWebSocketData_of_ne_wifi sig s now c hc]
  show broadcasts ((dispatch sig s now c).trace ++ [Event.broadcast _]) = _
  rw [broadcasts_append, dispatch_broadcasts]
  rfl

/-! ## C14: one broadcast per command -/

/-- C14, evaluated where it fails: the command `wifi` (ReconfigureNetwork) on the
freshly started board ends in `ESP.restart()`; the trace ends with the restart
and holds no snapshot. -/
theorem wifi_sends_no_broadcast :
    broadcasts (onWebSocketData sigIdle (setup bootReady) 40 (some Command.wifi)).trace = [] ∧
    (onWebSocketData sigIdle (setup bootReady) 40 (some Command.wifi)).halted = true ∧
    (onWebSocketData sigIdle (setup bootReady) 40 (some Command.wifi)).trace.getLast? =
      some Event.restart := by
  decide

/-- C14 as amended: every decoded command other than `wifi` is followed by
exactly one broadcast, and the snapshot sent is the full state as the command
left it, whether the command changed anything or not; `wifi` restarts the board
and sends no broadcast. -/
theorem command_sends_one_broadcast (sig : Signals) (s : Board) (now : Nat) (c : Command)
    (hc : c ≠ Command.wifi) :
    broadcasts (onWebSocketData sig s now (some c)).trace =
      broadcasts s.trace ++ [buildStateJson sig (dispatch sig s now c) now] ∧
    broadcasts (onWebSocketData sig s now (some Command.wifi)).trace = broadcasts s.trace ∧
    (onWebSocketData sig s now (some Command.wifi)).halted = true := by
  exact ⟨command_sends_one_broadcast_aux sig s now c hc,
    dispatch_broadcasts sig s now Command.wifi, rfl⟩

/-- C14 as amended, on the freshly started board: the command `set` for the
channel 200, which changes nothing, is acknowledged by one snapshot. -/
theorem command_sends_one_broadcast_witness :
    Command.set 200 true ≠ Command.wifi ∧
    broadcasts (onWebSocketData sigIdle (setup bootReady) 40 (some (Command.set 200 true))).trace
      = broadcasts (setup bootReady).trace ++
        [buildStateJson sigIdle (dispatch sigIdle (setup bootReady) 40 (Command.set 200 true)) 40] :=
  ⟨by decide, (command_sends_one_broadcast sigIdle (setup bootReady) 40 (Command.set 200 true)
    (by decide)).1⟩

/-! ## C12: the command `map` -/

/-- What the branch `map` does: it stores `output` in `inputMapping[input]` if
`input < 12` and `output < 12`, and does nothing otherwise. -/
theorem dispatch_map (sig : Signals) (s : Board) (now input : Nat) (output : Int) :
    dispatch sig s now (Command.map input output) =
      if input < NUM_CHANNELS ∧ output < (NUM_CHANNELS : Int) then
        { s with inputMapping := setAt s.inputMapping input output }
      else s := rfl

/-- C12, evaluated where it fails: on the freshly started board (no mapping
stored, `inputMapping[2] = -1`) the command `map` with input 2 and output -5,
which is neither a channel nor the sentinel, stores -5 in `inputMapping[2]` and
the snapshot sent reports it. With an output from 12 to 127, here 100, nothing is
stored and a snapshot is sent all the same. -/
theorem map_accepts_negative_output :
    (setup bootReady).inputMapping 2 = -1 ∧
    (onWebSocketData sigIdle (setup bootReady) 40 (some (Command.map 2 (-5)))).inputMapping 2
      = -5 ∧
    (broadcasts (onWebSocketData sigIdle (setup bootReady) 40
        (some (Command.map 2 (-5)))).trace).map (fun snap => snap.mappings.getD 2 0) = [-5] ∧
    (onWebSocketData sigIdle (setup bootReady) 40 (some (Command.map 2 100))).inputMapping 2
      = -1 ∧
    (broadcasts (onWebSocketData sigIdle (setup bootReady) 40
        (some (Command.map 2 100))).trace).map (fun snap => snap.mappings.getD 2 0) = [-1] := by
  decide

/-! ## Invariants of the relay variables -/

theorem setRelay_relayState_other (sig : Signals) (s : Board) (now ch j : Nat) (isOn : Bool)
    (hj : j ≠ ch) : (setRelay sig s now ch isOn).relayState j = s.relayState j := by
  by_cases hch : ch < NUM_CHANNELS
  · cases h : s.mcpReady (relayPin ch).mcpIndex
    · rw [setRelay_unreachable sig s now ch isOn hch h]
    · rw [setRelay_reachable sig s now ch isOn hch h, updateLedState_relayState]
      exact setAt_other _ _ _ _ hj
  · rw [setRelay_out_of_range sig s now ch isOn (Nat.le_of_not_lt hch)]

theorem setRelay_relayOnTimestamp_other (sig : Signals) (s : Board) (now ch j : Nat)
    (isOn : Bool) (hj : j ≠ ch) :
    (setRelay sig s now ch isOn).relayOnTimestamp j = s.relayOnTimestamp j := by
  by_cases hch : ch < NUM_CHANNELS
  · cases h : s.mcpReady (relayPin ch).mcpIndex
    · rw [setRelay_unreachable sig s now ch isOn hch h]
    · rw [setRelay_reachable sig s now ch isOn hch h, updateLedState_relayOnTimestamp]
      exact setAt_other _ _ _ _ hj
  · rw [setRelay_out_of_range sig s now ch isOn (Nat.le_of_not_lt hch)]

theorem timestampBacked_invariant : RelayInvariant TimestampBacked where
  congr := by
    intro s t h1 h2 _ h ch hch
    rw [h2] at hch
    rw [h1]
    exact h ch hch
  keep := by
    intro sig s now ch isOn h j hj
    by_cases hjc : j = ch
    · subst hjc
      by_cases hch : j < NUM_CHANNELS
      · cases hr : s.mcpReady (relayPin j).mcpIndex
        · rw [setRelay_unreachable sig s now j isOn hch hr] at hj ⊢
          exact h j hj
        · rw [setRelay_relayState_self sig s now j isOn hch hr]
          rw [setRelay_relayOnTimestamp_self sig s now j isOn hch hr] at hj
          cases isOn
          · exact absurd rfl hj
          · rfl
      · rw [setRelay_out_of_range sig s now j isOn (Nat.le_of_not_lt hch)] at hj ⊢
        exact h j hj
    · rw [setRelay_relayOnTimestamp_other sig s now ch j isOn hjc] at hj
      rw [setRelay_relayState_other sig s now ch j isOn hjc]
      exact h j hj

theorem setup_timestampBacked (b : BootInput) : TimestampBacked (setup b) := by
  intro ch hch
  simp [setup, updateLedState_relayOnTimestamp] at hch

/-- In every reachable state a timestamp that is set belongs to a relay that is on. -/
theorem reachable_timestampBacked (s : Board) (hs : Reachable s) : TimestampBacked s :=
  kept_reachable timestampBacked_invariant setup_timestampBacked s hs

/-- The chip flags never change after `setup`. -/
theorem run_mcpReady (s : Board) (as : List Action) : (run s as).mcpReady = s.mcpReady :=
  kept_run (P := fun t => t.mcpReady = s.mcpReady)
    { congr := fun _ _ _ _ h3 h => h3.trans h
      keep := fun sig t now ch isOn h => (setRelay_mcpReady sig t now ch isOn).trans h }
    as s rfl

/-- Switching off a relay that is on, in a state where relays that are on have
their chip ready, is performed: one pulse, one log line, no error line. -/
theorem setRelay_off_of_backed (sig : Signals) (s : Board) (now ch : Nat)
    (hb : RelaysBacked s) (hon : s.relayState ch = true) :
    (setRelay sig s now ch false).relayState ch = false ∧
    (setRelay sig s now ch false).relayOnTimestamp ch = 0 ∧
    (setRelay sig s now ch false).trace = s.trace ++ resetPulse ch := by
  obtain ⟨hch, hr⟩ := hb ch hon
  refine ⟨setRelay_relayState_self sig s now ch false hch hr,
    setRelay_relayOnTimestamp_self sig s now ch false hch hr, ?_⟩
  rw [setRelay_reachable sig s now ch false hch hr, updateLedState_trace]
  rfl

theorem driverCalls_resetPulse (ch : Nat) : driverCalls (resetPulse ch) = [(ch, some false)] :=
  rfl

theorem expanderWrites_resetPulse (ch : Nat) :
    expanderWrites (resetPulse ch) =
      [((relayPin ch).mcpIndex, (relayPin ch).resetPin, true),
       ((relayPin ch).mcpIndex, (relayPin ch).resetPin, false)] :=
  rfl

theorem broadcasts_resetPulse (ch : Nat) : broadcasts (resetPulse ch) = [] := rfl

/-! ## C16: on, then off -/

/-- C16: in every reachable state, for every channel in range and whatever the
uptime is at the two calls, `setRelay(ch, true)` followed by `setRelay(ch, false)`
leaves the relay off and `relayOnSince` absent. -/
theorem setRelay_on_then_off (s : Board) (hs : Reachable s) (sig1 sig2 : Signals)
    (t1 t2 ch : Nat) (hch : ch < NUM_CHANNELS) :
    (setRelay sig2 (setRelay sig1 s t1 ch true) t2 ch false).relayState ch = false ∧
    relayOnSince (setRelay sig2 (setRelay sig1 s t1 ch true) t2 ch false) ch = none := by
  cases hr : s.mcpReady (relayPin ch).mcpIndex
  · have hoff : s.relayState ch = false := by
      cases hon : s.relayState ch
      · rfl
      · have := (reachable_relaysBacked s hs ch hon).2
        rw [hr] at this
        exact absurd this (by decide)
    have hts : s.relayOnTimestamp ch = 0 := by
      by_contra hne
      have := reachable_timestampBacked s hs ch hne
      rw [hoff] at this
      exact absurd this (by decide)
    have hm1 : (setRelay sig1 s t1 ch true).mcpReady (relayPin ch).mcpIndex = false := by
      rw [setRelay_mcpReady]
      exact hr
    obtain ⟨hs1, _⟩ := setRelay_not_performed sig1 s t1 ch true (Or.inr hr)
    obtain ⟨hs2, _⟩ := setRelay_not_performed sig2 (setRelay sig1 s t1 ch true) t2 ch false
      (Or.inr hm1)
    constructor
    · rw [hs2.1, hs1.1]
      exact hoff
    · rw [relayOnSince_congr _ _ hs2.2.1, relayOnSince_congr _ _ hs1.2.1]
      simp [relayOnSince, hts]
  · have hr1 : (setRelay sig1 s t1 ch true).mcpReady (relayPin ch).mcpIndex = true := by
      rw [setRelay_mcpReady]
      exact hr
    exact ⟨setRelay_relayState_self sig2 _ t2 ch false hch hr1,
      setRelay_off_relayOnSince sig2 _ t2 ch hch hr1⟩

/-- C16 on the freshly started board, relay 5 switched on at uptime 0 and off at
uptime 3. -/
theorem setRelay_on_then_off_witness :
    Reachable (setup bootReady) ∧ (5 : Nat) < NUM_CHANNELS ∧
    (setRelay sigIdle (setRelay sigIdle (setup bootReady) 0 5 true) 3 5 false).relayState 5
      = false ∧
    relayOnSince (setRelay sigIdle (setRelay sigIdle (setup bootReady) 0 5 true) 3 5 false) 5
      = none :=
  ⟨⟨bootReady, [], rfl⟩, by decide,
   (setRelay_on_then_off (setup bootReady) ⟨bootReady, [], rfl⟩ sigIdle sigIdle 0 3 5
      (by decide)).1,
   (setRelay_on_then_off (setup bootReady) ⟨bootReady, [], rfl⟩ sigIdle sigIdle 0 3 5
      (by decide)).2⟩

/-! ## The command `alloff` -/

theorem allOffStep_frame (sig : Signals) (now : Nat) (s : Board) (i : Nat) :
    (allOffStep sig now s i).inputMapping = s.inputMapping ∧
    (allOffStep sig now s i).autoOffSeconds = s.autoOffSeconds ∧
    (allOffStep sig now s i).inputState = s.inputState ∧
    (allOffStep sig now s i).inputStatePrev = s.inputStatePrev ∧
    (allOffStep sig now s i).mcpReady = s.mcpReady := by
  unfold allOffStep
  split
  · exact ⟨setRelay_inputMapping _ _ _ _ _, setRelay_autoOffSeconds _ _ _ _ _,
      setRelay_inputState _ _ _ _ _, setRelay_inputStatePrev _ _ _ _ _,
      setRelay_mcpReady _ _ _ _ _⟩
  · exact ⟨rfl, rfl, rfl, rfl, rfl⟩

/-- The loop of `alloff` changes neither the configuration nor the inputs. -/
theorem allOff_foldl_frame (sig : Signals) (now : Nat) (l : List Nat) (s : Board) :
    (l.foldl (allOffStep sig now) s).inputMapping = s.inputMapping ∧
    (l.foldl (allOffStep sig now) s).autoOffSeconds = s.autoOffSeconds ∧
    (l.foldl (allOffStep sig now) s).inputState = s.inputState ∧
    (l.foldl (allOffStep sig now) s).inputStatePrev = s.inputStatePrev ∧
    (l.foldl (allOffStep sig now) s).mcpReady = s.mcpReady := by
  induction l generalizing s with
  | nil => exact ⟨rfl, rfl, rfl, rfl, rfl⟩
  | cons j t ih =>
      rw [List.foldl_cons]
      obtain ⟨a1, a2, a3, a4, a5⟩ := ih (allOffStep sig now s j)
      obtain ⟨b1, b2, b3, b4, b5⟩ := allOffStep_frame sig now s j
      exact ⟨a1.trans b1, a2.trans b2, a3.trans b3, a4.trans b4, a5.trans b5⟩

theorem allOffStep_backed (sig : Signals) (now : Nat) (s : Board) (i : Nat)
    (hb : RelaysBacked s) : RelaysBacked (allOffStep sig now s i) := by
  unfold allOffStep
  split
  · exact relaysBacked_invariant.keep sig s now i false hb
  · exact hb

/-- One step of the loop of `alloff` on the relay variables of channel `ch`. -/
theorem allOffStep_relay (sig : Signals) (now : Nat) (s : Board) (i ch : Nat)
    (hb : RelaysBacked s) :
    (allOffStep sig now s i).relayState ch = (if ch = i then false else s.relayState ch) ∧
    (allOffStep sig now s i).relayOnTimestamp ch =
      (if ch = i ∧ s.relayState ch = true then 0 else s.relayOnTimestamp ch) := by
  unfold allOffStep
  by_cases hon : s.relayState i = true
  · rw [if_pos hon]
    by_cases hci : ch = i
    · subst hci
      obtain ⟨h1, h2, _⟩ := setRelay_off_of_backed sig s now ch hb hon
      simp [h1, h2, hon]
    · simp [hci, setRelay_relayState_other sig s now i ch false hci,
        setRelay_relayOnTimestamp_other sig s now i ch false hci]
  · rw [if_neg hon]
    by_cases hci : ch = i
    · subst hci
      simp at hon
      simp [hon]
    · simp [hci]

/-- The relay variables after the loop of `alloff` over the channels `l`. -/
theorem allOff_foldl_relay (sig : Signals) (now : Nat) (l : List Nat) (s : Board)
    (hb : RelaysBacked s) (ch : Nat) :
    (l.foldl (allOffStep sig now) s).relayState ch =
        (if ch ∈ l then false else s.relayState ch) ∧
    (l.foldl (allOffStep sig now) s).relayOnTimestamp ch =
        (if ch ∈ l ∧ s.relayState ch = true then 0 else s.relayOnTimestamp ch) := by
  induction l generalizing s with
  | nil => simp
  | cons j t ih =>
      rw [List.foldl_cons]
      obtain ⟨a1, a2⟩ := ih (allOffStep sig now s j) (allOffStep_backed sig now s j hb)
      obtain ⟨b1, b2⟩ := allOffStep_relay sig now s j ch hb
      rw [a1, a2, b1, b2]
      by_cases hcj : ch = j
      · subst hcj
        by_cases hon : s.relayState ch = true <;> simp [hon]
      · simp [hcj]

/-- The trace after the loop of `alloff` over distinct channels: one reset pulse
for every channel of the list whose relay is on, in the order of the list. -/
theorem allOff_foldl_trace (sig : Signals) (now : Nat) (l : List Nat) (hnd : l.Nodup)
    (s : Board) (hb : RelaysBacked s) :
    (l.foldl (allOffStep sig now) s).trace =
      s.trace ++ (l.filter fun i => s.relayState i).flatMap resetPulse := by
  induction l generalizing s with
  | nil => simp
  | cons j t ih =>
      rw [List.foldl_cons]
      have hjt : j ∉ t := (List.nodup_cons.mp hnd).1
      rw [ih (List.nodup_cons.mp hnd).2 _ (allOffStep_backed sig now s j hb)]
      have hfilter : (t.filter fun i => (allOffStep sig now s j).relayState i) =
          t.filter fun i => s.relayState i := by
        apply List.filter_congr
        intro x hx
        have hxj : x ≠ j := fun h => hjt (h ▸ hx)
        rw [(allOffStep_relay sig now s j x hb).1, if_neg hxj]
      rw [hfilter]
      by_cases hon : s.relayState j = true
      · have htr : (allOffStep sig now s j).trace = s.trace ++ resetPulse j := by
          unfold allOffStep
          rw [if_pos hon]
          exact (setRelay_off_of_backed sig s now j hb hon).2.2
        rw [htr, List.filter_cons, if_pos hon, List.flatMap_cons, List.append_assoc]
      · have htr : (allOffStep sig now s j).trace = s.trace := by
          unfold allOffStep
          rw [if_neg hon]
        rw [htr, List.filter_cons, if_neg hon]

theorem driverCalls_flatMap_resetPulse (l : List Nat) :
    driverCalls (l.flatMap resetPulse) = l.map fun ch => (ch, some false) := by
  induction l with
  | nil => rfl
  | cons j t ih =>
      rw [List.flatMap_cons, driverCalls_append, ih]
      rfl

theorem expanderWrites_flatMap_resetPulse (l : List Nat) :
    expanderWrites (l.flatMap resetPulse) =
      l.flatMap fun ch =>
        [((relayPin ch).mcpIndex, (relayPin ch).resetPin, true),
         ((relayPin ch).mcpIndex, (relayPin ch).resetPin, false)] := by
  induction l with
  | nil => rfl
  | cons j t ih =>
      rw [List.flatMap_cons, expanderWrites_append, ih]
      rfl

/-! ## C13: `alloff` -/

/-- C13: in every reachable state the command `alloff` calls `setRelay(ch, false)`
for exactly the channels whose relay is on, in ascending order: each of them gets
one log line of the driver and one pulse on its RESET line, a channel that is off
gets none. Afterwards every relay is off and every `relayOnSince` is absent, the
mappings and the auto-off values are as before, and exactly one snapshot is
broadcast, reporting all outputs off. Scenario: with relays 0 and 2 on, the
command pulses the RESET lines of channels 0 and 2 and broadcasts one all-off
snapshot. -/
theorem alloff_switches_off_what_is_on (s : Board) (hs : Reachable s) (sig : Signals)
    (now : Nat) :
    (∀ ch, (onWebSocketData sig s now (some Command.alloff)).relayState ch = false ∧
      relayOnSince (onWebSocketData sig s now (some Command.alloff)) ch = none) ∧
    (onWebSocketData sig s now (some Command.alloff)).inputMapping = s.inputMapping ∧
    (onWebSocketData sig s now (some Command.alloff)).autoOffSeconds = s.autoOffSeconds ∧
    driverCalls (onWebSocketData sig s now (some Command.alloff)).trace =
      driverCalls s.trace ++
        ((List.range NUM_CHANNELS).filter fun i => s.relayState i).map
          (fun ch => (ch, some false)) ∧
    expanderWrites (onWebSocketData sig s now (some Command.alloff)).trace =
      expanderWrites s.trace ++
        ((List.range NUM_CHANNELS).filter fun i => s.relayState i).flatMap
          (fun ch => [((relayPin ch).mcpIndex, (relayPin ch).resetPin, true),
                      ((relayPin ch).mcpIndex, (relayPin ch).resetPin, false)]) ∧
    broadcasts (onWebSocketData sig s now (some Command.alloff)).trace =
      broadcasts s.trace ++ [buildStateJson sig (dispatch sig s now Command.alloff) now] ∧
    (buildStateJson sig (dispatch sig s now Command.alloff) now).outputs =
      List.replicate NUM_CHANNELS false ∧
    (((List.range NUM_CHANNELS).filter fun i => (run (setup bootReady) switchOn02).relayState i)
        = [0, 2] ∧
      expanderWrites (onWebSocketData sigIdle (run (setup bootReady) switchOn02) 3000
          (some Command.alloff)).trace =
        expanderWrites (run (setup bootReady) switchOn02).trace ++
          [(0, 8, true), (0, 8, false), (0, 10, true), (0, 10, false)] ∧
      ((broadcasts (onWebSocketData sigIdle (run (setup bootReady) switchOn02) 3000
          (some Command.alloff)).trace).drop
            (broadcasts (run (setup bootReady) switchOn02).trace).length).map
          (fun snap => snap.outputs) = [List.replicate 12 false]) := by
  have hb := reachable_relaysBacked s hs
  have ht := reachable_timestampBacked s hs
  have hd : dispatch sig s now Command.alloff =
      (List.range NUM_CHANNELS).foldl (allOffStep sig now) s := rfl
  have he : onWebSocketData sig s now (some Command.alloff) =
      sendState sig (dispatch sig s now Command.alloff) now := rfl
  have hall : ∀ ch, (dispatch sig s now Command.alloff).relayState ch = false ∧
      (dispatch sig s now Command.alloff).relayOnTimestamp ch = 0 := by
    intro ch
    obtain ⟨h1, h2⟩ := allOff_foldl_relay sig now (List.range NUM_CHANNELS) s hb ch
    rw [hd, h1, h2]
    cases hon : s.relayState ch
    · have hz : s.relayOnTimestamp ch = 0 := by
        by_contra hne
        have := ht ch hne
        rw [hon] at this
        exact absurd this (by decide)
      simp [hz]
    · have hch := (hb ch hon).1
      simp [List.mem_range, hch]
  have htrace := allOff_foldl_trace sig now (List.range NUM_CHANNELS) (List.nodup_range _) s hb
  have hfr := allOff_foldl_frame sig now (List.range NUM_CHANNELS) s
  have hfun : (dispatch sig s now Command.alloff).relayState = fun _ => false :=
    funext fun ch => (hall ch).1
  refine ⟨?_, ?_, ?_, ?_, ?_, ?_, ?_, by decide⟩
  · intro ch
    rw [he]
    exact ⟨(hall ch).1, by
      show relayOnSince (dispatch sig s now Command.alloff) ch = none
      simp [relayOnSince, (hall ch).2]⟩
  · rw [he]
    exact hfr.1
  · rw [he]
    exact hfr.2.1
  · rw [he]
    show driverCalls ((dispatch sig s now Command.alloff).trace ++ [Event.broadcast _]) = _
    rw [hd, htrace, driverCalls_append, driverCalls_append, driverCalls_flatMap_resetPulse]
    simp [driverCalls]
  · rw [he]
    show expanderWrites ((dispatch sig s now Command.alloff).trace ++ [Event.broadcast _]) = _
    rw [hd, htrace, expanderWrites_append, expanderWrites_append,
      expanderWrites_flatMap_resetPulse]
    simp [expanderWrites]
  · exact (command_sends_one_broadcast_aux sig s now Command.alloff (by decide))
  · show (List.range NUM_CHANNELS).map
        (fun i => (dispatch sig s now Command.alloff).relayState i) = _
    rw [hfun]
    decide

/-- C13 at the scenario of the claim: relays 0 and 2 on, then `alloff`. -/
theorem alloff_switches_off_what_is_on_witness :
    Reachable (run (setup bootReady) switchOn02) ∧
    (∀ ch, (onWebSocketData sigIdle (run (setup bootReady) switchOn02) 3000
        (some Command.alloff)).relayState ch = false ∧
      relayOnSince (onWebSocketData sigIdle (run (setup bootReady) switchOn02) 3000
        (some Command.alloff)) ch = none) ∧
    driverCalls (onWebSocketData sigIdle (run (setup bootReady) switchOn02) 3000
        (some Command.alloff)).trace =
      driverCalls (run (setup bootReady) switchOn02).trace ++ [(0, some false), (2, some false)] :=
  ⟨⟨bootReady, switchOn02, rfl⟩,
   (alloff_switches_off_what_is_on (run (setup bootReady) switchOn02)
      ⟨bootReady, switchOn02, rfl⟩ sigIdle 3000).1,
   ((alloff_switches_off_what_is_on (run (setup bootReady) switchOn02)
      ⟨bootReady, switchOn02, rfl⟩ sigIdle 3000).2.2.2.1).trans (by decide)⟩

/-! ## The auto-off loop -/

theorem autoOffDue_relayState (s : Board) (now i : Nat) (h : autoOffDue s now i = true) :
    s.relayState i = true := by
  simp only [autoOffDue, Bool.and_eq_true] at h
  exact h.1.1.1

/-- One step of the auto-off loop in a state where relays that are on have their
chip ready: a reset pulse if the timer is due, nothing otherwise. -/
theorem autoOffStep_trace (inp : TickInput) (acc : Board × Bool) (i : Nat)
    (hb : RelaysBacked acc.1) :
    (autoOffStep inp acc i).1.trace =
      acc.1.trace ++ (if autoOffDue acc.1 inp.now i = true then resetPulse i else []) := by
  unfold autoOffStep
  by_cases hd : autoOffDue acc.1 inp.now i = true
  · rw [if_pos hd, if_pos hd]
    exact (setRelay_off_of_backed inp.sig acc.1 (inp.tOff i) i hb
      (autoOffDue_relayState _ _ _ hd)).2.2
  · rw [if_neg hd, if_neg hd, List.append_nil]

/-- The auto-off loop adds reset pulses to the trace and nothing else. -/
theorem autoOff_foldl_trace (inp : TickInput) (l : List Nat) (acc : Board × Bool)
    (hb : RelaysBacked acc.1) :
    ∃ chs : List Nat, (l.foldl (autoOffStep inp) acc).1.trace =
      acc.1.trace ++ chs.flatMap resetPulse := by
  induction l generalizing acc with
  | nil => exact ⟨[], by simp⟩
  | cons j t ih =>
      rw [List.foldl_cons]
      obtain ⟨chs, hchs⟩ := ih (autoOffStep inp acc j)
        (kept_autoOffStep relaysBacked_invariant inp acc j hb)
      rw [hchs, autoOffStep_trace inp acc j hb]
      by_cases hd : autoOffDue acc.1 inp.now j = true
      · exact ⟨j :: chs, by rw [if_pos hd, List.flatMap_cons, List.append_assoc]⟩
      · exact ⟨chs, by rw [if_neg hd, List.append_nil]⟩

/-- A step of the auto-off loop for another channel leaves the variables of
channel `k` alone. -/
theorem autoOffStep_other (inp : TickInput) (acc : Board × Bool) (i k : Nat) (hk : k ≠ i) :
    (autoOffStep inp acc i).1.relayState k = acc.1.relayState k ∧
    (autoOffStep inp acc i).1.relayOnTimestamp k = acc.1.relayOnTimestamp k ∧
    (autoOffStep inp acc i).1.autoOffSeconds = acc.1.autoOffSeconds ∧
    (autoOffStep inp acc i).1.mcpReady = acc.1.mcpReady := by
  unfold autoOffStep
  split
  · exact ⟨setRelay_relayState_other _ _ _ _ _ _ hk,
      setRelay_relayOnTimestamp_other _ _ _ _ _ _ hk,
      setRelay_autoOffSeconds _ _ _ _ _, setRelay_mcpReady _ _ _ _ _⟩
  · exact ⟨rfl, rfl, rfl, rfl⟩

/-- Steps of the auto-off loop for other channels leave the variables of channel
`k` alone. -/
theorem autoOff_foldl_other (inp : TickInput) (l : List Nat) (k : Nat) (hk : k ∉ l)
    (acc : Board × Bool) :
    (l.foldl (autoOffStep inp) acc).1.relayState k = acc.1.relayState k ∧
    (l.foldl (autoOffStep inp) acc).1.relayOnTimestamp k = acc.1.relayOnTimestamp k ∧
    (l.foldl (autoOffStep inp) acc).1.autoOffSeconds = acc.1.autoOffSeconds ∧
    (l.foldl (autoOffStep inp) acc).1.mcpReady = acc.1.mcpReady := by
  induction l generalizing acc with
  | nil => exact ⟨rfl, rfl, rfl, rfl⟩
  | cons j t ih =>
      rw [List.foldl_cons]
      have hkj : k ≠ j := fun h => hk (h ▸ List.mem_cons_self _ _)
      have hkt : k ∉ t := fun h => hk (List.mem_cons_of_mem _ h)
      obtain ⟨a1, a2, a3, a4⟩ := ih hkt (autoOffStep inp acc j)
      obtain ⟨b1, b2, b3, b4⟩ := autoOffStep_other inp acc j k hkj
      exact ⟨a1.trans b1, a2.trans b2, a3.trans b3, a4.trans b4⟩

/-- The auto-off loop of one pass adds only performed switch-offs to the log of
the driver. -/
theorem sweep_driverCalls (inp : TickInput) (s : Board) (hb : RelaysBacked s) :
    ∃ chs : List Nat,
      driverCalls (autoOffSweep inp (scanInputs inp (s, false))).1.trace =
        driverCalls (scanInputs inp (s, false)).1.trace ++
          chs.map (fun ch => (ch, some false)) := by
  have hb2 : RelaysBacked (scanInputs inp (s, false)).1 :=
    kept_foldl _ (fun acc i => kept_scanStep relaysBacked_invariant inp acc i) _ _ hb
  obtain ⟨chs, hchs⟩ := autoOff_foldl_trace inp (List.range NUM_CHANNELS) _ hb2
  refine ⟨chs, ?_⟩
  unfold autoOffSweep
  rw [hchs, driverCalls_append, driverCalls_flatMap_resetPulse]

/-- The loop of `alloff` adds only performed switch-offs to the log of the
driver. -/
theorem alloff_driverCalls (sig : Signals) (now : Nat) (s : Board) (hb : RelaysBacked s) :
    ∃ chs : List Nat,
      driverCalls (dispatch sig s now Command.alloff).trace =
        driverCalls s.trace ++ chs.map (fun ch => (ch, some false)) := by
  refine ⟨(List.range NUM_CHANNELS).filter fun i => s.relayState i, ?_⟩
  have hd : dispatch sig s now Command.alloff =
      (List.range NUM_CHANNELS).foldl (allOffStep sig now) s := rfl
  rw [hd, allOff_foldl_trace sig now _ (List.nodup_range _) _ hb, driverCalls_append,
    driverCalls_flatMap_resetPulse]

/-- With a relay on, in a state where relays that are on have their chip ready,
`updateLedState` does not select the hardware error. -/
theorem updateLedState_no_error_of_backed (sig : Signals) (s : Board) (now : Nat)
    (hb : RelaysBacked s) (hex : ∃ ch, s.relayState ch = true) :
    (!s.mcpReady 0 && !s.mcpReady 1) = false ∧
    (updateLedState sig s now).led.s_state ≠ .ST_MCP_ERROR := by
  obtain ⟨ch, hon⟩ := hex
  obtain ⟨hch, hr⟩ := hb ch hon
  have hlt := relayPin_mcpIndex_lt ch
  have h01 : (relayPin ch).mcpIndex = 0 ∨ (relayPin ch).mcpIndex = 1 := by omega
  have hw : (!s.mcpReady 0 && !s.mcpReady 1) = false := by
    rcases h01 with h0 | h1
    · rw [h0] at hr
      simp [hr]
    · rw [h1] at hr
      simp [hr]
  have hany : anyRelayOn s = true := (anyRelayOn_iff _).mpr ⟨ch, hch, hon⟩
  refine ⟨hw, ?_⟩
  simp only [updateLedState, hw, Bool.false_eq_true, if_false, hany, if_true]
  rw [setState_s_state]
  decide

/-! ## C20: a relay that is on has its chip ready -/

/-- C20: along every run from `setup` the two chip flags keep the values `setup`
gave them, and a relay that is on sits on a channel whose chip is ready. So
switching such a relay off is always performed (reset pulse and log line, never
the error line), the auto-off loop of `loop` and the loop of `alloff` add nothing
but performed switch-offs to the driver log, and with a relay on the
hardware-error test of `updateLedState` fails. -/
theorem relay_on_implies_chip_ready (b : BootInput) (as : List Action) :
    (run (setup b) as).mcpReady = (setup b).mcpReady ∧
    (∀ ch, (run (setup b) as).relayState ch = true →
      ch < NUM_CHANNELS ∧ (run (setup b) as).mcpReady (relayPin ch).mcpIndex = true) ∧
    (∀ ch sig now, (run (setup b) as).relayState ch = true →
      driverCalls (setRelay sig (run (setup b) as) now ch false).trace =
        driverCalls (run (setup b) as).trace ++ [(ch, some false)] ∧
      (setRelay sig (run (setup b) as) now ch false).relayState ch = false) ∧
    (∀ inp, ∃ chs : List Nat,
      driverCalls (autoOffSweep inp (scanInputs inp (run (setup b) as, false))).1.trace =
        driverCalls (scanInputs inp (run (setup b) as, false)).1.trace ++
          chs.map (fun ch => (ch, some false))) ∧
    (∀ sig now, ∃ chs : List Nat,
      driverCalls (dispatch sig (run (setup b) as) now Command.alloff).trace =
        driverCalls (run (setup b) as).trace ++ chs.map (fun ch => (ch, some false))) ∧
    ((∃ ch, (run (setup b) as).relayState ch = true) →
      (!(run (setup b) as).mcpReady 0 && !(run (setup b) as).mcpReady 1) = false ∧
      ∀ sig now, (updateLedState sig (run (setup b) as) now).led.s_state ≠ .ST_MCP_ERROR) := by
  have hs : Reachable (run (setup b) as) := ⟨b, as, rfl⟩
  have hb := reachable_relaysBacked _ hs
  refine ⟨run_mcpReady _ _, hb, ?_, fun inp => sweep_driverCalls inp _ hb,
    fun sig now => alloff_driverCalls sig now _ hb, ?_⟩
  · intro ch sig now hon
    obtain ⟨h1, _, h3⟩ := setRelay_off_of_backed sig _ now ch hb hon
    exact ⟨by rw [h3, driverCalls_append, driverCalls_resetPulse], h1⟩
  · intro hex
    exact ⟨(updateLedState_no_error_of_backed sigIdle _ 0 hb hex).1,
      fun sig now => (updateLedState_no_error_of_backed sig _ now hb hex).2⟩

/-- C20 on the board whose first chip did not answer, after an attempt to switch
relay 3 (first chip) and relay 9 (second chip) on: relay 9 is on and its chip is
ready, relay 3 stayed off. -/
theorem relay_on_implies_chip_ready_witness :
    (run (setup bootChip0Down)
        [Action.wsData sigIdle 50 (some (Command.set 3 true)),
         Action.wsData sigIdle 60 (some (Command.set 9 true))]).relayState 9 = true ∧
    (run (setup bootChip0Down)
        [Action.wsData sigIdle 50 (some (Command.set 3 true)),
         Action.wsData sigIdle 60 (some (Command.set 9 true))]).relayState 3 = false ∧
    (run (setup bootChip0Down)
        [Action.wsData sigIdle 50 (some (Command.set 3 true)),
         Action.wsData sigIdle 60 (some (Command.set 9 true))]).mcpReady (relayPin 9).mcpIndex
      = true :=
  ⟨by decide, by decide,
   ((relay_on_implies_chip_ready bootChip0Down
      [Action.wsData sigIdle 50 (some (Command.set 3 true)),
       Action.wsData sigIdle 60 (some (Command.set 9 true))]).2.1 9 (by decide)).2⟩

/-! ## The input loop, index by index -/

theorem range_split (n i : Nat) (h : i < n) :
    List.range n = List.range i ++ i :: List.range' (i + 1) (n - (i + 1)) := by
  have h1 : List.range' 0 i ++ List.range' (0 + 1 * i) (n - i) = List.range' 0 (n - i + i) :=
    List.range'_append 0 i (n - i) 1
  have h2 : List.range' i (n - (i + 1) + 1) = i :: List.range' (i + 1) (n - (i + 1)) :=
    List.range'_succ i (n - (i + 1)) 1
  have e1 : n - i + i = n := by omega
  have e2 : n - (i + 1) + 1 = n - i := by omega
  have e3 : 0 + 1 * i = i := by omega
  rw [e1, e3] at h1
  rw [e2] at h2
  rw [List.range_eq_range', List.range_eq_range', ← h1, h2]

/-- The input loop is: the steps before `i`, the step for `i`, the steps after `i`. -/
theorem scanInputs_split (inp : TickInput) (s : Board) (i : Nat) (hi : i < NUM_CHANNELS) :
    scanInputs inp (s, false) =
      (List.range' (i + 1) (NUM_CHANNELS - (i + 1))).foldl (scanStep inp)
        (scanStep inp (scanPrefix inp s i) i) := by
  unfold scanInputs scanPrefix
  rw [range_split NUM_CHANNELS i hi, List.foldl_append, List.foldl_cons]

theorem scanStep_inputMapping (inp : TickInput) (acc : Board × Bool) (i : Nat) :
    (scanStep inp acc i).1.inputMapping = acc.1.inputMapping := by
  simp only [scanStep]
  split_ifs <;> simp [toggleRelay, setRelay_inputMapping]

theorem scan_foldl_inputMapping (inp : TickInput) (l : List Nat) (acc : Board × Bool) :
    (l.foldl (scanStep inp) acc).1.inputMapping = acc.1.inputMapping := by
  induction l generalizing acc with
  | nil => rfl
  | cons j t ih => rw [List.foldl_cons, ih, scanStep_inputMapping]

theorem autoOff_foldl_inputMapping (inp : TickInput) (l : List Nat) (acc : Board × Bool) :
    (l.foldl (autoOffStep inp) acc).1.inputMapping = acc.1.inputMapping := by
  induction l generalizing acc with
  | nil => rfl
  | cons j t ih =>
      rw [List.foldl_cons, ih]
      unfold autoOffStep
      split
      · exact setRelay_inputMapping _ _ _ _ _
      · rfl

/-- A pass of `loop` does not change the mapping. -/
theorem loop_inputMapping (inp : TickInput) (s : Board) :
    (loop inp s).inputMapping = s.inputMapping := by
  have h1 := scan_foldl_inputMapping inp (List.range NUM_CHANNELS) (s, false)
  have h2 := autoOff_foldl_inputMapping inp (List.range NUM_CHANNELS) (scanInputs inp (s, false))
  have h3 : (ntpStep inp (autoOffSweep inp (scanInputs inp (s, false))).1).inputMapping =
      (autoOffSweep inp (scanInputs inp (s, false))).1.inputMapping := by
    unfold ntpStep
    split
    · exact updateLedState_inputMapping _ _ _
    · rfl
  simp only [loop]
  split
  · exact h3.trans (h2.trans h1)
  · exact h3.trans (h2.trans h1)

/-- When the input loop reaches index `i`, the previous sample and the mapping of
input `i` are those of the start of the pass. -/
theorem scanPrefix_input (inp : TickInput) (s : Board) (i : Nat) :
    (scanPrefix inp s i).1.inputStatePrev i = s.inputStatePrev i ∧
    (scanPrefix inp s i).1.inputMapping = s.inputMapping := by
  have hni : i ∉ List.range i := by simp
  exact ⟨(scan_foldl_of_not_mem inp i (List.range i) hni (s, false)).2,
    scan_foldl_inputMapping inp (List.range i) (s, false)⟩

/-- The step for input `i` on a rising edge with mapped relay `m`, on the state
the loop has reached. -/
theorem scan_at_rising (inp : TickInput) (s : Board) (i m : Nat)
    (hprev : s.inputStatePrev i = false) (hcur : inp.pins i = true)
    (hm : m < NUM_CHANNELS) (hmap : s.inputMapping i = (m : Int)) :
    scanStep inp (scanPrefix inp s i) i =
      ({ toggleRelay inp.sig
            { (scanPrefix inp s i).1 with
              inputState := setAt (scanPrefix inp s i).1.inputState i true }
            (inp.tScan i) m with
          inputStatePrev := setAt (scanPrefix inp s i).1.inputStatePrev i true }, true) ∧
    (driverCalls (scanStep inp (scanPrefix inp s i) i).1.trace).length =
      (driverCalls (scanPrefix inp s i).1.trace).length + 1 := by
  obtain ⟨hp, hmp⟩ := scanPrefix_input inp s i
  have hprev2 : (scanPrefix inp s i).1.inputStatePrev i = false := hp.trans hprev
  have hmap2 : (scanPrefix inp s i).1.inputMapping i = (m : Int) := by rw [hmp]; exact hmap
  have hstep := scanStep_rising_mapped inp (scanPrefix inp s i).1 (scanPrefix inp s i).2 i m
    hprev2 hcur hm hmap2
  refine ⟨hstep, ?_⟩
  rw [hstep]
  exact setRelay_driverCalls_length _ _ _ _ _ hm

/-- The step for input `i` when the input reads low, on the state the loop has
reached: no relay action. -/
theorem scan_at_low (inp : TickInput) (s : Board) (i : Nat) (hcur : inp.pins i = false) :
    (scanStep inp (scanPrefix inp s i) i).1.trace = (scanPrefix inp s i).1.trace ∧
    (scanStep inp (scanPrefix inp s i) i).1.relayState = (scanPrefix inp s i).1.relayState ∧
    (scanStep inp (scanPrefix inp s i) i).1.relayOnTimestamp =
      (scanPrefix inp s i).1.relayOnTimestamp := by
  have hn : ¬ (inp.pins i = true ∧ (scanPrefix inp s i).1.inputStatePrev i = false) := by
    rw [hcur]
    simp
  rw [scanStep_not_rising inp _ i hn]
  split
  · exact ⟨rfl, rfl, rfl⟩
  · exact ⟨rfl, rfl, rfl⟩

/-! ## C18: no debouncing -/

set_option maxRecDepth 100000 in
/-- C18: let input `i` be mapped to the relay `m` and its previous sample be
false. Three consecutive passes of `loop` that sample input `i` as true, false,
true see a rising edge, a falling edge and a rising edge again. The step of the
first pass for input `i` is one call `toggleRelay(m)`, the step of the second
pass performs no relay action, the step of the third pass is one call
`toggleRelay(m)` again; each pass has exactly one step for input `i`. Scenario:
with input 3 mapped to relay 7 and all else quiet, the three passes enter the
driver exactly twice, switching relay 7 on and off again. -/
theorem three_samples_two_toggles (s : Board) (inp1 inp2 inp3 : TickInput) (i m : Nat)
    (hi : i < NUM_CHANNELS) (hm : m < NUM_CHANNELS) (hmap : s.inputMapping i = (m : Int))
    (hprev : s.inputStatePrev i = false)
    (h1 : inp1.pins i = true) (h2 : inp2.pins i = false) (h3 : inp3.pins i = true) :
    ((loop inp1 s).inputStatePrev i = true ∧
      (loop inp2 (loop inp1 s)).inputStatePrev i = false ∧
      (loop inp3 (loop inp2 (loop inp1 s))).inputStatePrev i = true) ∧
    (scanStep inp1 (scanPrefix inp1 s i) i =
        ({ toggleRelay inp1.sig
              { (scanPrefix inp1 s i).1 with
                inputState := setAt (scanPrefix inp1 s i).1.inputState i true }
              (inp1.tScan i) m with
            inputStatePrev := setAt (scanPrefix inp1 s i).1.inputStatePrev i true }, true) ∧
      (driverCalls (scanStep inp1 (scanPrefix inp1 s i) i).1.trace).length =
        (driverCalls (scanPrefix inp1 s i).1.trace).length + 1) ∧
    ((scanStep inp2 (scanPrefix inp2 (loop inp1 s) i) i).1.trace =
        (scanPrefix inp2 (loop inp1 s) i).1.trace ∧
      (scanStep inp2 (scanPrefix inp2 (loop inp1 s) i) i).1.relayState =
        (scanPrefix inp2 (loop inp1 s) i).1.relayState) ∧
    (scanStep inp3 (scanPrefix inp3 (loop inp2 (loop inp1 s)) i) i =
        ({ toggleRelay inp3.sig
              { (scanPrefix inp3 (loop inp2 (loop inp1 s)) i).1 with
                inputState :=
                  setAt (scanPrefix inp3 (loop inp2 (loop inp1 s)) i).1.inputState i true }
              (inp3.tScan i) m with
            inputStatePrev :=
              setAt (scanPrefix inp3 (loop inp2 (loop inp1 s)) i).1.inputStatePrev i true },
          true) ∧
      (driverCalls (scanStep inp3 (scanPrefix inp3 (loop inp2 (loop inp1 s)) i) i).1.trace).length
        = (driverCalls (scanPrefix inp3 (loop inp2 (loop inp1 s)) i).1.trace).length + 1) ∧
    (∀ inp t, scanInputs inp (t, false) =
        (List.range' (i + 1) (NUM_CHANNELS - (i + 1))).foldl (scanStep inp)
          (scanStep inp (scanPrefix inp t i) i) ∧
      i ∉ List.range i ∧ i ∉ List.range' (i + 1) (NUM_CHANNELS - (i + 1))) ∧
    ((setup bootMap37).inputMapping 3 = 7 ∧ (setup bootMap37).inputStatePrev 3 = false ∧
      driverCalls (run (setup bootMap37)
          [Action.tick (tickInput3 true 100), Action.tick (tickInput3 false 200),
           Action.tick (tickInput3 true 300)]).trace = [(7, some true), (7, some false)] ∧
      driverCalls (run (setup bootMap37) [Action.tick (tickInput3 true 100)]).trace =
        [(7, some true)] ∧
      driverCalls (run (setup bootMap37)
          [Action.tick (tickInput3 true 100), Action.tick (tickInput3 false 200)]).trace =
        [(7, some true)]) := by
  have p1 := (loop_input_self inp1 s i hi).2
  have p2 := (loop_input_self inp2 (loop inp1 s) i hi).2
  have p3 := (loop_input_self inp3 (loop inp2 (loop inp1 s)) i hi).2
  rw [h1] at p1
  rw [h2] at p2
  rw [h3] at p3
  have m1 : (loop inp1 s).inputMapping = s.inputMapping := loop_inputMapping inp1 s
  have m2 : (loop inp2 (loop inp1 s)).inputMapping = s.inputMapping :=
    (loop_inputMapping inp2 _).trans m1
  refine ⟨⟨p1, p2, p3⟩, scan_at_rising inp1 s i m hprev h1 hm hmap, ?_,
    scan_at_rising inp3 _ i m p2 h3 hm (by rw [m2]; exact hmap), ?_, by decide⟩
  · obtain ⟨a, b, _⟩ := scan_at_low inp2 (loop inp1 s) i h2
    exact ⟨a, b⟩
  · intro inp t
    refine ⟨scanInputs_split inp t i hi, by simp, ?_⟩
    simp [List.mem_range'_1]

/-- C18 at the scenario: input 3 mapped to relay 7, samples true, false, true. -/
theorem three_samples_two_toggles_witness :
    ((3 : Nat) < NUM_CHANNELS ∧ (7 : Nat) < NUM_CHANNELS ∧
      (setup bootMap37).inputMapping 3 = ((7 : Nat) : Int) ∧
      (setup bootMap37).inputStatePrev 3 = false) ∧
    (driverCalls (scanStep (tickInput3 true 100)
        (scanPrefix (tickInput3 true 100) (setup bootMap37) 3) 3).1.trace).length =
      (driverCalls (scanPrefix (tickInput3 true 100) (setup bootMap37) 3).1.trace).length + 1 ∧
    (loop (tickInput3 true 300) (loop (tickInput3 false 200)
      (loop (tickInput3 true 100) (setup bootMap37)))).inputStatePrev 3 = true :=
  ⟨by decide,
   (three_samples_two_toggles (setup bootMap37) (tickInput3 true 100) (tickInput3 false 200)
      (tickInput3 true 300) 3 7 (by decide) (by decide) (by decide) (by decide) (by decide)
      (by decide) (by decide)).2.1.2,
   (three_samples_two_toggles (setup bootMap37) (tickInput3 true 100) (tickInput3 false 200)
      (tickInput3 true 300) 3 7 (by decide) (by decide) (by decide) (by decide) (by decide)
      (by decide) (by decide)).1.2.2⟩

/-! ## The flag `stateChanged` -/

/-- The flag after a step of the input loop: set on every edge, kept otherwise. -/
theorem scanStep_flag (inp : TickInput) (acc : Board × Bool) (i : Nat) :
    (scanStep inp acc i).2 = (acc.2 || (inp.pins i != acc.1.inputStatePrev i)) := by
  cases hc : inp.pins i <;> cases hp : acc.1.inputStatePrev i <;> simp [scanStep, hc, hp]

/-- Without an edge the step of the input loop changes nothing. -/
theorem scanStep_of_no_edge (inp : TickInput) (acc : Board × Bool) (i : Nat)
    (h : inp.pins i = acc.1.inputStatePrev i) : scanStep inp acc i = acc := by
  have hn : ¬ (inp.pins i = true ∧ acc.1.inputStatePrev i = false) := by
    rw [h]
    cases acc.1.inputStatePrev i <;> simp
  have hf : ¬ (inp.pins i = false ∧ acc.1.inputStatePrev i = true) := by
    rw [h]
    cases acc.1.inputStatePrev i <;> simp
  rw [scanStep_not_rising inp acc i hn, if_neg hf]
  have hset : setAt acc.1.inputStatePrev i (inp.pins i) = acc.1.inputStatePrev := by
    funext j
    by_cases hj : j = i
    · subst hj
      rw [setAt_same, h]
    · exact setAt_other _ _ _ _ hj
  rw [hset]

theorem scan_foldl_of_no_edge (inp : TickInput) (l : List Nat) (acc : Board × Bool)
    (h : ∀ i ∈ l, inp.pins i = acc.1.inputStatePrev i) : l.foldl (scanStep inp) acc = acc := by
  induction l with
  | nil => rfl
  | cons j t ih =>
      rw [List.foldl_cons, scanStep_of_no_edge inp acc j (h j (List.mem_cons_self _ _))]
      exact ih fun i hi => h i (List.mem_cons_of_mem _ hi)

/-- If the flag is still clear after the input loop, no input had an edge. -/
theorem scan_foldl_flag_false (inp : TickInput) (l : List Nat) (acc : Board × Bool)
    (h : (l.foldl (scanStep inp) acc).2 = false) :
    acc.2 = false ∧ ∀ i ∈ l, inp.pins i = acc.1.inputStatePrev i := by
  induction l generalizing acc with
  | nil => exact ⟨h, fun i hi => absurd hi (List.not_mem_nil _)⟩
  | cons j t ih =>
      rw [List.foldl_cons] at h
      obtain ⟨h1, h2⟩ := ih (scanStep inp acc j) h
      rw [scanStep_flag] at h1
      have hacc : acc.2 = false := by
        cases hb : acc.2
        · rfl
        · rw [hb] at h1
          simp at h1
      have hj : inp.pins j = acc.1.inputStatePrev j := by
        rw [hacc] at h1
        simpa using h1
      refine ⟨hacc, ?_⟩
      intro i hi
      rcases List.mem_cons.mp hi with rfl | hit
      · exact hj
      · have := h2 i hit
        rw [scanStep_of_no_edge inp acc j hj] at this
        exact this

theorem autoOff_foldl_of_not_due (inp : TickInput) (l : List Nat) (acc : Board × Bool)
    (h : ∀ i ∈ l, autoOffDue acc.1 inp.now i = false) : l.foldl (autoOffStep inp) acc = acc := by
  induction l with
  | nil => rfl
  | cons j t ih =>
      have hj : autoOffStep inp acc j = acc := by
        unfold autoOffStep
        rw [h j (List.mem_cons_self _ _)]
        rfl
      rw [List.foldl_cons, hj]
      exact ih fun i hi => h i (List.mem_cons_of_mem _ hi)

/-- If the flag is still clear after the auto-off loop, no timer was due and the
loop changed nothing. -/
theorem autoOff_foldl_flag_false (inp : TickInput) (l : List Nat) (acc : Board × Bool)
    (h : (l.foldl (autoOffStep inp) acc).2 = false) :
    acc.2 = false ∧ l.foldl (autoOffStep inp) acc = acc := by
  induction l generalizing acc with
  | nil => exact ⟨h, rfl⟩
  | cons j t ih =>
      rw [List.foldl_cons] at h ⊢
      obtain ⟨h1, h2⟩ := ih (autoOffStep inp acc j) h
      have hj : autoOffStep inp acc j = acc := by
        unfold autoOffStep at h1 ⊢
        split
        · next hd =>
            rw [if_pos hd] at h1
            exact absurd h1 Bool.noConfusion
        · rfl
      rw [hj] at h1 h2
      exact ⟨h1, by rw [hj]; exact h2⟩

/-- If the auto-off loop sets the flag, it switched off a relay that was on. -/
theorem autoOff_foldl_flag_true (inp : TickInput) (l : List Nat) (hnd : l.Nodup)
    (acc : Board × Bool) (hb : RelaysBacked acc.1)
    (h : (l.foldl (autoOffStep inp) acc).2 = true) :
    acc.2 = true ∨ ∃ i ∈ l, acc.1.relayState i = true ∧
      (l.foldl (autoOffStep inp) acc).1.relayState i = false := by
  induction l generalizing acc with
  | nil => exact Or.inl h
  | cons j t ih =>
      rw [List.foldl_cons] at h ⊢
      have hjt : j ∉ t := (List.nodup_cons.mp hnd).1
      by_cases hd : autoOffDue acc.1 inp.now j = true
      · right
        have hon := autoOffDue_relayState _ _ _ hd
        refine ⟨j, List.mem_cons_self _ _, hon, ?_⟩
        rw [(autoOff_foldl_other inp t j hjt (autoOffStep inp acc j)).1]
        unfold autoOffStep
        rw [if_pos hd]
        exact (setRelay_off_of_backed inp.sig acc.1 (inp.tOff j) j hb hon).1
      · have hj : autoOffStep inp acc j = acc := by
          unfold autoOffStep
          rw [if_neg hd]
        rw [hj] at h ⊢
        rcases ih (List.nodup_cons.mp hnd).2 acc hb h with h1 | ⟨i, hi, h2, h3⟩
        · exact Or.inl h1
        · exact Or.inr ⟨i, List.mem_cons_of_mem _ hi, h2, h3⟩

theorem scan_foldl_broadcasts (inp : TickInput) (l : List Nat) (acc : Board × Bool) :
    broadcasts (l.foldl (scanStep inp) acc).1.trace = broadcasts acc.1.trace := by
  induction l generalizing acc with
  | nil => rfl
  | cons j t ih =>
      rw [List.foldl_cons, ih]
      simp only [scanStep]
      split_ifs <;> simp [toggleRelay, setRelay_broadcasts]

theorem autoOff_foldl_broadcasts (inp : TickInput) (l : List Nat) (acc : Board × Bool) :
    broadcasts (l.foldl (autoOffStep inp) acc).1.trace = broadcasts acc.1.trace := by
  induction l generalizing acc with
  | nil => rfl
  | cons j t ih =>
      rw [List.foldl_cons, ih]
      unfold autoOffStep
      split
      · exact setRelay_broadcasts _ _ _ _ _
      · rfl

theorem ntpStep_frame (inp : TickInput) (s : Board) :
    (ntpStep inp s).trace = s.trace ∧ (ntpStep inp s).relayState = s.relayState := by
  unfold ntpStep
  split
  · exact ⟨updateLedState_trace _ _ _, updateLedState_relayState _ _ _⟩
  · exact ⟨rfl, rfl⟩

/-- What one pass of `loop` broadcasts: one snapshot of the state at the end of
the pass if the flag is set, nothing otherwise. -/
theorem loop_broadcasts (inp : TickInput) (s : Board) :
    broadcasts (loop inp s).trace =
      broadcasts s.trace ++
        (if (autoOffSweep inp (scanInputs inp (s, false))).2 = true
          then [buildStateJson inp.sig (loop inp s) inp.tEnd] else []) := by
  have h1 : broadcasts (scanInputs inp (s, false)).1.trace = broadcasts s.trace :=
    scan_foldl_broadcasts inp _ (s, false)
  have h2 : broadcasts (autoOffSweep inp (scanInputs inp (s, false))).1.trace =
      broadcasts (scanInputs inp (s, false)).1.trace :=
    autoOff_foldl_broadcasts inp _ _
  have h3 := (ntpStep_frame inp (autoOffSweep inp (scanInputs inp (s, false))).1).1
  by_cases hf : (autoOffSweep inp (scanInputs inp (s, false))).2 = true
  · have hl : loop inp s =
        sendState inp.sig (ntpStep inp (autoOffSweep inp (scanInputs inp (s, false))).1)
          inp.tEnd := by
      simp only [loop, hf, if_true]
    rw [if_pos hf, hl]
    show broadcasts ((ntpStep inp _).trace ++ [Event.broadcast _]) = _
    rw [broadcasts_append, h3, h2, h1]
    rfl
  · have hl : loop inp s = ntpStep inp (autoOffSweep inp (scanInputs inp (s, false))).1 := by
      simp only [loop, hf]
      rfl
    rw [if_neg hf, hl, h3, h2, h1, List.append_nil]

/-- The relay states at the end of a pass are those after the auto-off loop. -/
theorem loop_relayState (inp : TickInput) (s : Board) :
    (loop inp s).relayState = (autoOffSweep inp (scanInputs inp (s, false))).1.relayState := by
  have h3 := (ntpStep_frame inp (autoOffSweep inp (scanInputs inp (s, false))).1).2
  simp only [loop]
  split
  · exact h3
  · exact h3

/-! ## The inputs between two passes -/

/-- No branch of the command handler touches the input variables. -/
theorem dispatch_inputs (sig : Signals) (s : Board) (now : Nat) (c : Command) :
    (dispatch sig s now c).inputState = s.inputState ∧
    (dispatch sig s now c).inputStatePrev = s.inputStatePrev := by
  cases c with
  | toggle ch =>
      show (ite _ _ _ : Board).inputState = _ ∧ (ite _ _ _ : Board).inputStatePrev = _
      split
      · exact ⟨setRelay_inputState _ _ _ _ _, setRelay_inputStatePrev _ _ _ _ _⟩
      · exact ⟨rfl, rfl⟩
  | set ch val =>
      show (ite _ _ _ : Board).inputState = _ ∧ (ite _ _ _ : Board).inputStatePrev = _
      split
      · exact ⟨setRelay_inputState _ _ _ _ _, setRelay_inputStatePrev _ _ _ _ _⟩
      · exact ⟨rfl, rfl⟩
  | map input output =>
      show (ite _ _ _ : Board).inputState = _ ∧ (ite _ _ _ : Board).inputStatePrev = _
      split <;> exact ⟨rfl, rfl⟩
  | timer ch secs =>
      show (ite _ _ _ : Board).inputState = _ ∧ (ite _ _ _ : Board).inputStatePrev = _
      split <;> exact ⟨rfl, rfl⟩
  | wifi => exact ⟨rfl, rfl⟩
  | alloff =>
      have h := allOff_foldl_frame sig now (List.range NUM_CHANNELS) s
      exact ⟨h.2.2.1, h.2.2.2.1⟩
  | other => exact ⟨rfl, rfl⟩

theorem onWebSocketData_inputs (sig : Signals) (s : Board) (now : Nat) (c : Option Command) :
    (onWebSocketData sig s now c).inputState = s.inputState ∧
    (onWebSocketData sig s now c).inputStatePrev = s.inputStatePrev := by
  cases c with
  | none => exact ⟨rfl, rfl⟩
  | some c =>
      by_cases hc : c = Command.wifi
      · subst hc
        exact dispatch_inputs sig s now Command.wifi
      · rw [onWebSocketData_of_ne_wifi sig s now c hc]
        exact dispatch_inputs sig s now c

/-- After a pass of `loop` the observable level of every input is its last sample. -/
theorem loop_inputsSettled (inp : TickInput) (s : Board) (h : InputsSettled s) :
    InputsSettled (loop inp s) := by
  intro i
  by_cases hi : i < NUM_CHANNELS
  · obtain ⟨h1, h2⟩ := loop_input_self inp s i hi
    rw [h1, h2]
    have hs := h i
    cases hc : inp.pins i <;> cases hp : s.inputStatePrev i <;> simp [hs, hp]
  · obtain ⟨h1, h2⟩ := loop_inputs inp s
    have hni : i ∉ List.range NUM_CHANNELS := by simpa using hi
    obtain ⟨h3, h4⟩ := scan_foldl_of_not_mem inp i (List.range NUM_CHANNELS) hni (s, false)
    rw [h1, h2]
    exact (h3.trans (h i)).trans h4.symm

theorem step_inputsSettled (s : Board) (a : Action) (h : InputsSettled s) :
    InputsSettled (step s a) := by
  unfold step
  split
  · exact h
  · cases a with
    | callSetRelay sig now ch isOn =>
        intro i
        show (setRelay sig s now ch isOn).inputState i = (setRelay sig s now ch isOn).inputStatePrev i
        rw [setRelay_inputState, setRelay_inputStatePrev]
        exact h i
    | callToggleRelay sig now ch =>
        intro i
        show (setRelay sig s now ch _).inputState i = (setRelay sig s now ch _).inputStatePrev i
        rw [setRelay_inputState, setRelay_inputStatePrev]
        exact h i
    | wsData sig now cmd =>
        intro i
        obtain ⟨h1, h2⟩ := onWebSocketData_inputs sig s now cmd
        show (onWebSocketData sig s now cmd).inputState i = _
        rw [h1]
        show _ = (onWebSocketData sig s now cmd).inputStatePrev i
        rw [h2]
        exact h i
    | wsConnect sig now =>
        intro i
        show (updateLedState sig _ now).inputState i = (updateLedState sig _ now).inputStatePrev i
        rw [updateLedState_inputState, updateLedState_inputStatePrev]
        exact h i
    | wsDisconnect sig now =>
        intro i
        show (updateLedState sig s now).inputState i = (updateLedState sig s now).inputStatePrev i
        rw [updateLedState_inputState, updateLedState_inputStatePrev]
        exact h i
    | tick inp => exact loop_inputsSettled inp s h

theorem setup_inputsSettled (b : BootInput) : InputsSettled (setup b) := by
  intro i
  simp [setup, updateLedState_inputState, updateLedState_inputStatePrev]

/-- In every reachable state the observable level of every input is its last
sample. -/
theorem reachable_inputsSettled (s : Board) (hs : Reachable s) : InputsSettled s := by
  obtain ⟨b, as, rfl⟩ := hs
  have key : ∀ (l : List Action) (t : Board), InputsSettled t → InputsSettled (run t l) := by
    intro l
    induction l with
    | nil => exact fun t ht => ht
    | cons a rest ih => exact fun t ht => ih (step t a) (step_inputsSettled t a ht)
  exact key as _ (setup_inputsSettled b)

/-! ## C15: broadcast of a pass exactly on an observable change -/

/-- In a reachable state the flag `stateChanged` is set at the end of the two loops
exactly if a raw input or a relay state differs between start and end of the
pass. -/
theorem stateChanged_iff_observable (s : Board) (hs : Reachable s) (inp : TickInput) :
    (autoOffSweep inp (scanInputs inp (s, false))).2 = true ↔
      ObservableChange s (loop inp s) := by
  have hb := reachable_relaysBacked s hs
  have hset := reachable_inputsSettled s hs
  have hb2 : RelaysBacked (scanInputs inp (s, false)).1 :=
    kept_foldl _ (fun acc i => kept_scanStep relaysBacked_invariant inp acc i) _ _ hb
  constructor
  · intro hflag
    have edgeCase : (∃ i, i < NUM_CHANNELS ∧ inp.pins i ≠ s.inputStatePrev i) →
        ObservableChange s (loop inp s) := by
      rintro ⟨i, hi, hne⟩
      refine ⟨i, hi, Or.inl ?_⟩
      rw [(loop_input_self inp s i hi).1, hset i]
      cases hc : inp.pins i <;> cases hp : s.inputStatePrev i <;> simp_all
    cases ha : (scanInputs inp (s, false)).2
    · obtain ⟨_, hno⟩ := scan_foldl_flag_false inp (List.range NUM_CHANNELS) (s, false) ha
      have hid : scanInputs inp (s, false) = (s, false) :=
        scan_foldl_of_no_edge inp _ (s, false) hno
      rcases autoOff_foldl_flag_true inp (List.range NUM_CHANNELS) (List.nodup_range _)
        (scanInputs inp (s, false)) hb2 hflag with h1 | ⟨i, hi, h2, h3⟩
      · rw [ha] at h1
        exact absurd h1 Bool.noConfusion
      · refine ⟨i, List.mem_range.mp hi, Or.inr ?_⟩
        rw [loop_relayState]
        rw [hid] at h2
        have h3' : (autoOffSweep inp (scanInputs inp (s, false))).1.relayState i = false := h3
        rw [h3', h2]
        decide
    · apply edgeCase
      by_contra hnone
      have hno : ∀ i ∈ List.range NUM_CHANNELS, inp.pins i = (s, false).1.inputStatePrev i := by
        intro i hi
        by_contra hne
        exact hnone ⟨i, List.mem_range.mp hi, hne⟩
      have hid : scanInputs inp (s, false) = (s, false) :=
        scan_foldl_of_no_edge inp _ (s, false) hno
      rw [hid] at ha
      exact absurd ha Bool.noConfusion
  · intro hchg
    by_contra hflag
    have hf : (autoOffSweep inp (scanInputs inp (s, false))).2 = false := by
      cases h : (autoOffSweep inp (scanInputs inp (s, false))).2
      · rfl
      · exact absurd h hflag
    obtain ⟨ha, hsw⟩ := autoOff_foldl_flag_false inp (List.range NUM_CHANNELS)
      (scanInputs inp (s, false)) hf
    obtain ⟨_, hno⟩ := scan_foldl_flag_false inp (List.range NUM_CHANNELS) (s, false) ha
    have hid : scanInputs inp (s, false) = (s, false) :=
      scan_foldl_of_no_edge inp _ (s, false) hno
    have hsw' : autoOffSweep inp (scanInputs inp (s, false)) = scanInputs inp (s, false) := hsw
    obtain ⟨i, _, hi | hi⟩ := hchg
    · apply hi
      rw [(loop_inputs inp s).1, hid]
    · apply hi
      rw [loop_relayState, hsw', hid]

/-- C15: for every reachable state and every vector of sampled inputs, one pass
of `loop` broadcasts a snapshot (one, of the state at the end of the pass) if and
only if some `inputState[i]` or some `relayState[i]` differs between the start and
the end of the pass, and broadcasts nothing otherwise; a pass without an input
edge and without a due timer broadcasts nothing. -/
theorem tick_broadcast_iff_observable_change (s : Board) (hs : Reachable s)
    (inp : TickInput) :
    (ObservableChange s (loop inp s) ↔
      broadcasts (loop inp s).trace =
        broadcasts s.trace ++ [buildStateJson inp.sig (loop inp s) inp.tEnd]) ∧
    (¬ ObservableChange s (loop inp s) ↔
      broadcasts (loop inp s).trace = broadcasts s.trace) ∧
    ((∀ i, i < NUM_CHANNELS → inp.pins i = s.inputStatePrev i) →
      (∀ i, i < NUM_CHANNELS → autoOffDue s inp.now i = false) →
      broadcasts (loop inp s).trace = broadcasts s.trace) := by
  have hiff := stateChanged_iff_observable s hs inp
  have hbc := loop_broadcasts inp s
  have hne : ∀ (l : List Snapshot) (x : Snapshot), l ++ [x] ≠ l := by
    intro l x h
    have := congrArg List.length h
    simp at this
  refine ⟨?_, ?_, ?_⟩
  · constructor
    · intro hc
      rw [hbc, if_pos (hiff.mpr hc)]
    · intro hsent
      by_contra hc
      have hf : ¬ (autoOffSweep inp (scanInputs inp (s, false))).2 = true :=
        fun h => hc (hiff.mp h)
      rw [hbc, if_neg hf, List.append_nil] at hsent
      exact hne _ _ hsent.symm
  · constructor
    · intro hc
      have hf : ¬ (autoOffSweep inp (scanInputs inp (s, false))).2 = true :=
        fun h => hc (hiff.mp h)
      rw [hbc, if_neg hf, List.append_nil]
    · intro hsent hc
      rw [hbc, if_pos (hiff.mpr hc)] at hsent
      exact hne _ _ hsent
  · intro hedge hdue
    have hid : scanInputs inp (s, false) = (s, false) :=
      scan_foldl_of_no_edge inp _ (s, false) fun i hi => hedge i (List.mem_range.mp hi)
    have hsw : autoOffSweep inp (s, false) = (s, false) :=
      autoOff_foldl_of_not_due inp _ (s, false) fun i hi => hdue i (List.mem_range.mp hi)
    have hf : ¬ (autoOffSweep inp (scanInputs inp (s, false))).2 = true := by
      rw [hid, hsw]
      exact Bool.noConfusion
    rw [hbc, if_neg hf, List.append_nil]

/-- C15 on the freshly started board with input 3 mapped to relay 7: the pass
with a rising edge on input 3 broadcasts one snapshot, the quiet pass after it
broadcasts none. -/
theorem tick_broadcast_iff_observable_change_witness :
    (Reachable (setup bootMap37) ∧ ObservableChange (setup bootMap37)
        (loop tickEdge3 (setup bootMap37))) ∧
    broadcasts (loop tickEdge3 (setup bootMap37)).trace =
      broadcasts (setup bootMap37).trace ++
        [buildStateJson tickEdge3.sig (loop tickEdge3 (setup bootMap37)) tickEdge3.tEnd] ∧
    broadcasts (loop (tickInput3 true 200) (loop tickEdge3 (setup bootMap37))).trace =
      broadcasts (loop tickEdge3 (setup bootMap37)).trace :=
  ⟨⟨⟨bootMap37, [], rfl⟩, ⟨3, by decide, Or.inl (by decide)⟩⟩,
   (tick_broadcast_iff_observable_change (setup bootMap37) ⟨bootMap37, [], rfl⟩ tickEdge3).1.mp
     ⟨3, by decide, Or.inl (by decide)⟩,
   (tick_broadcast_iff_observable_change (loop tickEdge3 (setup bootMap37))
     ⟨bootMap37, [Action.tick tickEdge3], rfl⟩ (tickInput3 true 200)).2.2
     (by intro i hi; unfold NUM_CHANNELS at hi; interval_cases i <;> decide)
     (by intro i hi; unfold NUM_CHANNELS at hi; interval_cases i <;> decide)⟩

/-! ## The auto-off loop, channel by channel -/

theorem driverCallsOf_append (ch : Nat) (t u : List Event) :
    driverCallsOf ch (t ++ u) = driverCallsOf ch t ++ driverCallsOf ch u := by
  simp [driverCallsOf, driverCalls_append]

/-- A call of `setRelay` for another channel leaves no entry for channel `ch`. -/
theorem setRelay_driverCallsOf_other (sig : Signals) (s : Board) (now j ch : Nat)
    (isOn : Bool) (hj : j ≠ ch) :
    driverCallsOf ch (setRelay sig s now j isOn).trace = driverCallsOf ch s.trace := by
  by_cases hjr : j < NUM_CHANNELS
  · cases h : s.mcpReady (relayPin j).mcpIndex
    · rw [setRelay_unreachable sig s now j isOn hjr h]
      show driverCallsOf ch (s.trace ++ [Event.relayErr j _]) = _
      rw [driverCallsOf_append]
      simp [driverCallsOf, driverCalls, hj]
    · rw [setRelay_reachable sig s now j isOn hjr h, updateLedState_trace]
      show driverCallsOf ch (s.trace ++ _) = _
      rw [driverCallsOf_append]
      simp [driverCallsOf, driverCalls, hj]
  · rw [setRelay_out_of_range sig s now j isOn (Nat.le_of_not_lt hjr)]

theorem autoOff_foldl_driverCallsOf_other (inp : TickInput) (l : List Nat) (ch : Nat)
    (hch : ch ∉ l) (acc : Board × Bool) :
    driverCallsOf ch (l.foldl (autoOffStep inp) acc).1.trace = driverCallsOf ch acc.1.trace := by
  induction l generalizing acc with
  | nil => rfl
  | cons j t ih =>
      rw [List.foldl_cons]
      have hjc : j ≠ ch := fun h => hch (h ▸ List.mem_cons_self _ _)
      rw [ih (fun h => hch (List.mem_cons_of_mem _ h))]
      unfold autoOffStep
      split
      · exact setRelay_driverCallsOf_other _ _ _ _ _ _ hjc
      · rfl

/-- Whether the timer of channel `ch` is due depends on the variables of `ch` only. -/
theorem autoOffDue_congr (s t : Board) (now ch : Nat) (h1 : t.relayState ch = s.relayState ch)
    (h2 : t.relayOnTimestamp ch = s.relayOnTimestamp ch)
    (h3 : t.autoOffSeconds = s.autoOffSeconds) :
    autoOffDue t now ch = autoOffDue s now ch := by
  simp [autoOffDue, h1, h2, h3]

theorem autoOffStep_of_due (inp : TickInput) (acc : Board × Bool) (i : Nat)
    (h : autoOffDue acc.1 inp.now i = true) :
    autoOffStep inp acc i = (setRelay inp.sig acc.1 (inp.tOff i) i false, true) := by
  unfold autoOffStep
  rw [if_pos h]

theorem autoOffStep_of_not_due (inp : TickInput) (acc : Board × Bool) (i : Nat)
    (h : autoOffDue acc.1 inp.now i = false) : autoOffStep inp acc i = acc := by
  unfold autoOffStep
  rw [h]
  rfl

/-- The auto-off loop is: the steps before `ch`, the step for `ch`, the steps after. -/
theorem autoOffSweep_split (inp : TickInput) (acc : Board × Bool) (ch : Nat)
    (hch : ch < NUM_CHANNELS) :
    autoOffSweep inp acc =
      (List.range' (ch + 1) (NUM_CHANNELS - (ch + 1))).foldl (autoOffStep inp)
        (autoOffStep inp ((List.range ch).foldl (autoOffStep inp) acc) ch) := by
  unfold autoOffSweep
  rw [range_split NUM_CHANNELS ch hch, List.foldl_append, List.foldl_cons]

/-- The auto-off loop on a channel whose timer is due: the relay is switched off
by one performed call of the driver. -/
theorem sweep_of_due (inp : TickInput) (s : Board) (c : Bool) (ch : Nat)
    (hch : ch < NUM_CHANNELS) (hb : RelaysBacked s) (hdue : autoOffDue s inp.now ch = true) :
    (autoOffSweep inp (s, c)).1.relayState ch = false ∧
    (autoOffSweep inp (s, c)).1.relayOnTimestamp ch = 0 ∧
    driverCallsOf ch (autoOffSweep inp (s, c)).1.trace =
      driverCallsOf ch s.trace ++ [(ch, some false)] := by
  have hpre : ch ∉ List.range ch := by simp
  have hpost : ch ∉ List.range' (ch + 1) (NUM_CHANNELS - (ch + 1)) := by
    simp [List.mem_range'_1]
  obtain ⟨p1, p2, p3, _⟩ := autoOff_foldl_other inp (List.range ch) ch hpre (s, c)
  have hbp : RelaysBacked ((List.range ch).foldl (autoOffStep inp) (s, c)).1 :=
    kept_foldl _ (fun acc i => kept_autoOffStep relaysBacked_invariant inp acc i) _ _ hb
  have hduep : autoOffDue ((List.range ch).foldl (autoOffStep inp) (s, c)).1 inp.now ch = true :=
    (autoOffDue_congr _ _ _ _ p1 p2 p3).trans hdue
  have hon := autoOffDue_relayState _ _ _ hduep
  obtain ⟨q1, q2, q3⟩ := setRelay_off_of_backed inp.sig _ (inp.tOff ch) ch hbp hon
  have hstep : autoOffStep inp ((List.range ch).foldl (autoOffStep inp) (s, c)) ch =
      (setRelay inp.sig ((List.range ch).foldl (autoOffStep inp) (s, c)).1 (inp.tOff ch) ch false,
        true) := autoOffStep_of_due inp _ ch hduep
  obtain ⟨r1, r2, _, _⟩ := autoOff_foldl_other inp _ ch hpost
    (autoOffStep inp ((List.range ch).foldl (autoOffStep inp) (s, c)) ch)
  have r3 := autoOff_foldl_driverCallsOf_other inp _ ch hpost
    (autoOffStep inp ((List.range ch).foldl (autoOffStep inp) (s, c)) ch)
  rw [autoOffSweep_split inp (s, c) ch hch, r1, r2, r3, hstep]
  refine ⟨q1, q2, ?_⟩
  show driverCallsOf ch (setRelay inp.sig _ (inp.tOff ch) ch false).trace = _
  rw [q3, driverCallsOf_append, autoOff_foldl_driverCallsOf_other inp _ ch hpre (s, c)]
  simp [driverCallsOf, driverCalls_resetPulse]

/-- The auto-off loop on a channel whose timer is not due: the relay variables of
the channel stay and the driver is not called for it. -/
theorem sweep_of_not_due (inp : TickInput) (s : Board) (c : Bool) (ch : Nat)
    (hch : ch < NUM_CHANNELS) (hdue : autoOffDue s inp.now ch = false) :
    (autoOffSweep inp (s, c)).1.relayState ch = s.relayState ch ∧
    (autoOffSweep inp (s, c)).1.relayOnTimestamp ch = s.relayOnTimestamp ch ∧
    driverCallsOf ch (autoOffSweep inp (s, c)).1.trace = driverCallsOf ch s.trace := by
  have hpre : ch ∉ List.range ch := by simp
  have hpost : ch ∉ List.range' (ch + 1) (NUM_CHANNELS - (ch + 1)) := by
    simp [List.mem_range'_1]
  obtain ⟨p1, p2, p3, _⟩ := autoOff_foldl_other inp (List.range ch) ch hpre (s, c)
  have hduep : autoOffDue ((List.range ch).foldl (autoOffStep inp) (s, c)).1 inp.now ch = false :=
    (autoOffDue_congr _ _ _ _ p1 p2 p3).trans hdue
  have hstep : autoOffStep inp ((List.range ch).foldl (autoOffStep inp) (s, c)) ch =
      (List.range ch).foldl (autoOffStep inp) (s, c) := autoOffStep_of_not_due inp _ ch hduep
  obtain ⟨r1, r2, _, _⟩ := autoOff_foldl_other inp _ ch hpost
    (autoOffStep inp ((List.range ch).foldl (autoOffStep inp) (s, c)) ch)
  have r3 := autoOff_foldl_driverCallsOf_other inp _ ch hpost
    (autoOffStep inp ((List.range ch).foldl (autoOffStep inp) (s, c)) ch)
  rw [autoOffSweep_split inp (s, c) ch hch, r1, r2, r3, hstep]
  exact ⟨p1, p2, autoOff_foldl_driverCallsOf_other inp _ ch hpre (s, c)⟩

/-! ## C17: the countdown of a running timer -/

/-- The remaining seconds of a running timer whose seconds do not wrap. -/
theorem getRemaining_of_running (s : Board) (ch now : Nat) (hch : ch < NUM_CHANNELS)
    (hon : s.relayState ch = true) (hS : 0 < s.autoOffSeconds ch)
    (hsmall : s.autoOffSeconds ch ≤ 4294966) (hts : s.relayOnTimestamp ch ≠ 0) :
    getRemainingAutoOffSeconds s ch now =
      if s.autoOffSeconds ch * 1000 ≤ u32sub now (s.relayOnTimestamp ch) then 0
      else (s.autoOffSeconds ch * 1000 - u32sub now (s.relayOnTimestamp ch) + 999) / 1000 := by
  by_cases hel : s.autoOffSeconds ch * 1000 ≤ u32sub now (s.relayOnTimestamp ch)
  · have hp := autoOff_product_exact (s.autoOffSeconds ch) (by omega)
    have hne : s.autoOffSeconds ch ≠ 0 := by omega
    rw [if_pos hel]
    simp [getRemainingAutoOffSeconds, Nat.not_le.mpr hch, hon, hne, hts, hp, hel]
  · rw [if_neg hel]
    exact getRemaining_exact_of_small s ch now hch hon hS hsmall hts (Nat.lt_of_not_le hel)

/-- Once the relay is off, no timer of the channel is due and nothing remains. -/
theorem off_no_timer (s : Board) (ch : Nat) (hoff : s.relayState ch = false) (t : Nat) :
    autoOffDue s t ch = false ∧ getRemainingAutoOffSeconds s ch t = 0 := by
  constructor
  · simp [autoOffDue, hoff]
  · unfold getRemainingAutoOffSeconds
    split
    · rfl
    · simp [hoff]

/-- C17, evaluated where it fails: relay 0 has `autoOffSeconds = 10` and is on
since uptime 1000. At the uptimes 1001 < 1002, both within the 10000 ms, the
remaining time is 10 s both times, so it does not decrease strictly. -/
theorem remaining_not_strictly_decreasing :
    (run (setup bootReady) (timedOn 10)).relayState 0 = true ∧
    (run (setup bootReady) (timedOn 10)).autoOffSeconds 0 = 10 ∧
    relayOnSince (run (setup bootReady) (timedOn 10)) 0 = some 1000 ∧
    (1001 < 1002 ∧ 1002 - 1000 ≤ 10 * 1000) ∧
    getRemainingAutoOffSeconds (run (setup bootReady) (timedOn 10)) 0 1001 = 10 ∧
    getRemainingAutoOffSeconds (run (setup bootReady) (timedOn 10)) 0 1002 = 10 ∧
    ¬ (getRemainingAutoOffSeconds (run (setup bootReady) (timedOn 10)) 0 1002 <
        getRemainingAutoOffSeconds (run (setup bootReady) (timedOn 10)) 0 1001) := by
  decide

/-- C17 as amended: let relay `ch` be on in a reachable state, with
`autoOffSeconds = S`, `0 < S ≤ 4294966`, and `relayOnSince = t0` present; elapsed
times are the unsigned 32 bit differences to `t0`. For times `t1`, `t2` with
elapsed(t1) < elapsed(t2) ≤ S*1000 the remaining seconds do not increase, and
they decrease strictly if the two times are at least 1000 ms apart or if
elapsed(t2) = S*1000. An auto-off loop run before S*1000 ms have elapsed leaves
the relay on and does not call the driver for `ch`; an auto-off loop run once
S*1000 ms have elapsed switches the relay off by exactly one performed
`setRelay(ch, false)`, after which `relayOnSince` is absent, the remaining time is
0 at every time and a further auto-off loop does not call the driver for `ch`. -/
theorem remaining_counts_down (s : Board) (hs : Reachable s) (ch : Nat)
    (hch : ch < NUM_CHANNELS) (hon : s.relayState ch = true)
    (hS : 0 < s.autoOffSeconds ch) (hsmall : s.autoOffSeconds ch ≤ 4294966)
    (hts : s.relayOnTimestamp ch ≠ 0) :
    (∀ t1 t2,
      u32sub t1 (s.relayOnTimestamp ch) < u32sub t2 (s.relayOnTimestamp ch) →
      u32sub t2 (s.relayOnTimestamp ch) ≤ s.autoOffSeconds ch * 1000 →
      getRemainingAutoOffSeconds s ch t2 ≤ getRemainingAutoOffSeconds s ch t1 ∧
      (u32sub t1 (s.relayOnTimestamp ch) + 1000 ≤ u32sub t2 (s.relayOnTimestamp ch) →
        getRemainingAutoOffSeconds s ch t2 < getRemainingAutoOffSeconds s ch t1) ∧
      (u32sub t2 (s.relayOnTimestamp ch) = s.autoOffSeconds ch * 1000 →
        getRemainingAutoOffSeconds s ch t2 < getRemainingAutoOffSeconds s ch t1)) ∧
    (∀ (inp : TickInput) (c : Bool),
      u32sub inp.now (s.relayOnTimestamp ch) < s.autoOffSeconds ch * 1000 →
      (autoOffSweep inp (s, c)).1.relayState ch = true ∧
      driverCallsOf ch (autoOffSweep inp (s, c)).1.trace = driverCallsOf ch s.trace) ∧
    (∀ (inp : TickInput) (c : Bool),
      s.autoOffSeconds ch * 1000 ≤ u32sub inp.now (s.relayOnTimestamp ch) →
      (autoOffSweep inp (s, c)).1.relayState ch = false ∧
      relayOnSince (autoOffSweep inp (s, c)).1 ch = none ∧
      driverCallsOf ch (autoOffSweep inp (s, c)).1.trace =
        driverCallsOf ch s.trace ++ [(ch, some false)] ∧
      (∀ t, getRemainingAutoOffSeconds (autoOffSweep inp (s, c)).1 ch t = 0) ∧
      (∀ (inp2 : TickInput) (c2 : Bool),
        (autoOffSweep inp2 ((autoOffSweep inp (s, c)).1, c2)).1.relayState ch = false ∧
        driverCallsOf ch (autoOffSweep inp2 ((autoOffSweep inp (s, c)).1, c2)).1.trace =
          driverCallsOf ch (autoOffSweep inp (s, c)).1.trace)) := by
  have hb := reachable_relaysBacked s hs
  have hdue := autoOffDue_iff_of_small s
  have hsome : (relayOnSince s ch).isSome = true := by simp [relayOnSince, hts]
  refine ⟨?_, ?_, ?_⟩
  · intro t1 t2 h12 h2
    rw [getRemaining_of_running s ch t1 hch hon hS hsmall hts,
      getRemaining_of_running s ch t2 hch hon hS hsmall hts]
    have h1 : ¬ s.autoOffSeconds ch * 1000 ≤ u32sub t1 (s.relayOnTimestamp ch) := by omega
    rw [if_neg h1]
    by_cases he : s.autoOffSeconds ch * 1000 ≤ u32sub t2 (s.relayOnTimestamp ch)
    · rw [if_pos he]
      refine ⟨Nat.zero_le _, fun _ => ?_, fun _ => ?_⟩ <;> omega
    · rw [if_neg he]
      refine ⟨?_, fun _ => ?_, fun _ => ?_⟩ <;> omega
  · intro inp c hlt
    have hnd : autoOffDue s inp.now ch = false := by
      cases hd : autoOffDue s inp.now ch
      · rfl
      · have := ((hdue inp.now ch (by omega)).mp hd).2.2.2
        omega
    obtain ⟨h1, _, h3⟩ := sweep_of_not_due inp s c ch hch hnd
    exact ⟨h1.trans hon, h3⟩
  · intro inp c hge
    have hd : autoOffDue s inp.now ch = true :=
      (hdue inp.now ch (by omega)).mpr ⟨hon, hS, hsome, hge⟩
    obtain ⟨h1, h2, h3⟩ := sweep_of_due inp s c ch hch hb hd
    refine ⟨h1, by simp [relayOnSince, h2], h3,
      fun t => (off_no_timer _ ch h1 t).2, ?_⟩
    intro inp2 c2
    obtain ⟨k1, _, k3⟩ := sweep_of_not_due inp2 (autoOffSweep inp (s, c)).1 c2 ch hch
      (off_no_timer _ ch h1 inp2.now).1
    exact ⟨k1.trans h1, k3⟩

/-- C17 as amended, on the board with a 10 s timer on relay 0 switched on at
uptime 1000: the remaining time falls from 10 s at uptime 1001 to 9 s at uptime
2001, and the auto-off loop at uptime 11000 switches the relay off. -/
theorem remaining_counts_down_witness :
    (Reachable (run (setup bootReady) (timedOn 10)) ∧ (0 : Nat) < NUM_CHANNELS ∧
      (run (setup bootReady) (timedOn 10)).relayState 0 = true ∧
      0 < (run (setup bootReady) (timedOn 10)).autoOffSeconds 0 ∧
      (run (setup bootReady) (timedOn 10)).autoOffSeconds 0 ≤ 4294966 ∧
      (run (setup bootReady) (timedOn 10)).relayOnTimestamp 0 ≠ 0) ∧
    getRemainingAutoOffSeconds (run (setup bootReady) (timedOn 10)) 0 2001 <
      getRemainingAutoOffSeconds (run (setup bootReady) (timedOn 10)) 0 1001 ∧
    (autoOffSweep (tickQuiet 11000) (run (setup bootReady) (timedOn 10), false)).1.relayState 0
      = false :=
  ⟨⟨⟨bootReady, timedOn 10, rfl⟩, by decide, by decide, by decide, by decide, by decide⟩,
   ((remaining_counts_down (run (setup bootReady) (timedOn 10)) ⟨bootReady, timedOn 10, rfl⟩ 0
      (by decide) (by decide) (by decide) (by decide) (by decide)).1 1001 2001
      (by decide) (by decide)).2.1 (by decide),
   ((remaining_counts_down (run (setup bootReady) (timedOn 10)) ⟨bootReady, timedOn 10, rfl⟩ 0
      (by decide) (by decide) (by decide) (by decide) (by decide)).2.2 (tickQuiet 11000) false
      (by decide)).1⟩

/-! ## C21: the frame of `setRelay` -/

/-- No expander line is shared: the SET and RESET lines of a channel differ, and
neither is the SET or RESET line of another channel. -/
theorem relay_pins_distinct :
    ∀ ch, ch < NUM_CHANNELS → ∀ j, j < NUM_CHANNELS →
      (relayPin ch).setPin ≠ (relayPin ch).resetPin ∧
      (j ≠ ch →
        ((relayPin j).mcpIndex, (relayPin j).setPin) ≠
          ((relayPin ch).mcpIndex, (relayPin ch).setPin) ∧
        ((relayPin j).mcpIndex, (relayPin j).setPin) ≠
          ((relayPin ch).mcpIndex, (relayPin ch).resetPin) ∧
        ((relayPin j).mcpIndex, (relayPin j).resetPin) ≠
          ((relayPin ch).mcpIndex, (relayPin ch).setPin) ∧
        ((relayPin j).mcpIndex, (relayPin j).resetPin) ≠
          ((relayPin ch).mcpIndex, (relayPin ch).resetPin)) := by
  intro ch hch j hj
  unfold NUM_CHANNELS at hch hj
  interval_cases ch <;> interval_cases j <;> decide

/-- The expander writes of one call of `setRelay` on a channel in range: the
pulse on the selected line if the chip is ready, nothing otherwise. -/
theorem setRelay_expanderWrites (sig : Signals) (s : Board) (now ch : Nat) (isOn : Bool)
    (hch : ch < NUM_CHANNELS) :
    expanderWrites (setRelay sig s now ch isOn).trace =
      expanderWrites s.trace ++
        (if s.mcpReady (relayPin ch).mcpIndex = true then
          [((relayPin ch).mcpIndex,
              (if isOn = true then (relayPin ch).setPin else (relayPin ch).resetPin), true),
           ((relayPin ch).mcpIndex,
              (if isOn = true then (relayPin ch).setPin else (relayPin ch).resetPin), false)]
        else []) := by
  cases h : s.mcpReady (relayPin ch).mcpIndex
  · rw [setRelay_unreachable sig s now ch isOn hch h]
    simp [expanderWrites_append, expanderWrites]
  · rw [setRelay_reachable sig s now ch isOn hch h, updateLedState_trace]
    simp [expanderWrites_append, expanderWrites]

/-- C21: for a channel `ch` in 0..11 and every desired value, `setRelay(ch,
desired)` leaves `relayState[j]` and `relayOnSince[j]` of every other channel and
the arrays `inputState`, `inputStatePrev`, `inputMapping`, `autoOffSeconds` as they
are. The only expander line it writes is the SET line of `ch` if `desired` is
true and the RESET line of `ch` if it is false (one pulse, high then low, and only
if the chip is ready), and by the pin table that chip and line are neither the
SET nor the RESET line of any other channel. -/
theorem setRelay_frame (sig : Signals) (s : Board) (now ch : Nat) (desired : Bool)
    (hch : ch < NUM_CHANNELS) :
    (∀ j, j ≠ ch →
      (setRelay sig s now ch desired).relayState j = s.relayState j ∧
      relayOnSince (setRelay sig s now ch desired) j = relayOnSince s j) ∧
    (setRelay sig s now ch desired).inputState = s.inputState ∧
    (setRelay sig s now ch desired).inputStatePrev = s.inputStatePrev ∧
    (setRelay sig s now ch desired).inputMapping = s.inputMapping ∧
    (setRelay sig s now ch desired).autoOffSeconds = s.autoOffSeconds ∧
    expanderWrites (setRelay sig s now ch desired).trace =
      expanderWrites s.trace ++
        (if s.mcpReady (relayPin ch).mcpIndex = true then
          [((relayPin ch).mcpIndex,
              (if desired = true then (relayPin ch).setPin else (relayPin ch).resetPin), true),
           ((relayPin ch).mcpIndex,
              (if desired = true then (relayPin ch).setPin else (relayPin ch).resetPin), false)]
        else []) ∧
    (∀ j, j < NUM_CHANNELS → j ≠ ch →
      ((relayPin j).mcpIndex, (relayPin j).setPin) ≠
        ((relayPin ch).mcpIndex,
          if desired = true then (relayPin ch).setPin else (relayPin ch).resetPin) ∧
      ((relayPin j).mcpIndex, (relayPin j).resetPin) ≠
        ((relayPin ch).mcpIndex,
          if desired = true then (relayPin ch).setPin else (relayPin ch).resetPin)) := by
  refine ⟨?_, setRelay_inputState _ _ _ _ _, setRelay_inputStatePrev _ _ _ _ _,
    setRelay_inputMapping _ _ _ _ _, setRelay_autoOffSeconds _ _ _ _ _,
    setRelay_expanderWrites sig s now ch desired hch, ?_⟩
  · intro j hj
    refine ⟨setRelay_relayState_other sig s now ch j desired hj, ?_⟩
    simp [relayOnSince, setRelay_relayOnTimestamp_other sig s now ch j desired hj]
  · intro j hjr hj
    obtain ⟨h1, h2, h3, h4⟩ := (relay_pins_distinct ch hch j hjr).2 hj
    cases desired
    · exact ⟨h2, h4⟩
    · exact ⟨h1, h3⟩

/-- C21 on the board with relays 0 and 2 on: switching relay 9 on pulses line 1
of the second chip and leaves relay 0 and its timestamp alone. -/
theorem setRelay_frame_witness :
    (9 : Nat) < NUM_CHANNELS ∧
    (setRelay sigIdle (run (setup bootReady) switchOn02) 3000 9 true).relayState 0 = true ∧
    relayOnSince (setRelay sigIdle (run (setup bootReady) switchOn02) 3000 9 true) 0 =
      some 1000 ∧
    expanderWrites (setRelay sigIdle (run (setup bootReady) switchOn02) 3000 9 true).trace =
      expanderWrites (run (setup bootReady) switchOn02).trace ++ [(1, 1, true), (1, 1, false)] :=
  ⟨by decide,
   ((setRelay_frame sigIdle (run (setup bootReady) switchOn02) 3000 9 true (by decide)).1 0
      (by decide)).1.trans (by decide),
   ((setRelay_frame sigIdle (run (setup bootReady) switchOn02) 3000 9 true (by decide)).1 0
      (by decide)).2.trans (by decide),
   ((setRelay_frame sigIdle (run (setup bootReady) switchOn02) 3000 9 true
      (by decide)).2.2.2.2.2.1).trans (by decide)⟩

end IOBoard
